import Mathlib

/-!
Verification of the tigma canvas document engine (src/index.ts).

The TypeScript source is shallowly embedded: the mutable `CanvasApp` class
becomes a `CanvasApp` structure with explicit state passing, JS arrays become
`List`s (push appends at the end, `shift` drops the head, `pop` removes the
last element), and JS `Set`s of ids become duplicate-free lists in insertion
order.  All numbers are embedded as `Int` (the source only ever works with
integers).
-/

namespace Tigma
/-- Modelled from the spec: the `RGBA` color value of the external
`@opentui/core` library, which is out of scope of the repository and is
specified at its interface as a fully specified RGBA 4-tuple with channel
values in [0,255].  `fromInts` and `fromValues` both build the tuple from its
four channels. -/
structure RGBA where
  r : Int
  g : Int
  b : Int
  a : Int
deriving DecidableEq

def RGBA.fromInts (r g b a : Int) : RGBA := ⟨r, g, b, a⟩

def RGBA.fromValues (r g b a : Int) : RGBA := ⟨r, g, b, a⟩

/-- Entity color: `null` (here `none`) means transparent. -/
abbrev EntityColor := Option RGBA

structure TextChar where
  char : Char
  bold : Bool
  color : EntityColor
deriving DecidableEq

structure TextBox where
  id : Int
  x : Int
  y : Int
  chars : List TextChar
  zIndex : Int
  strokeColor : EntityColor
  fillColor : EntityColor
deriving DecidableEq

structure Rectangle where
  id : Int
  x1 : Int
  y1 : Int
  x2 : Int
  y2 : Int
  bold : Bool
  zIndex : Int
  strokeColor : EntityColor
  fillColor : EntityColor
deriving DecidableEq

structure Line where
  id : Int
  x1 : Int
  y1 : Int
  x2 : Int
  y2 : Int
  bold : Bool
  zIndex : Int
  strokeColor : EntityColor
  fillColor : EntityColor
deriving DecidableEq

def STROKE_PALETTE : List EntityColor :=
  [none,
   some (RGBA.fromInts 0 0 0 255),
   some (RGBA.fromInts 255 255 255 255),
   some (RGBA.fromInts 255 100 100 255),
   some (RGBA.fromInts 100 255 100 255),
   some (RGBA.fromInts 100 100 255 255),
   some (RGBA.fromInts 255 255 100 255)]

def FILL_PALETTE : List EntityColor :=
  [none,
   some (RGBA.fromInts 0 0 0 255),
   some (RGBA.fromInts 60 60 60 255),
   some (RGBA.fromInts 80 30 30 255),
   some (RGBA.fromInts 30 80 30 255),
   some (RGBA.fromInts 30 30 80 255),
   some (RGBA.fromInts 80 80 30 255)]

inductive Tool where
  | move
  | text
  | rectangle
  | line
deriving DecidableEq

inductive ResizeHandle where
  | nw
  | n
  | ne
  | e
  | se
  | s
  | sw
  | w
deriving DecidableEq

structure HistorySnapshot where
  textBoxes : List TextBox
  rectangles : List Rectangle
  lines : List Line
  nextTextBoxId : Int
  nextRectId : Int
  nextLineId : Int
  nextZIndex : Int
deriving DecidableEq

/-- The mutable state of the `CanvasApp` class, restricted to the fields the
document engine reads and writes. -/
structure CanvasApp where
  gridWidth : Int
  gridHeight : Int
  textBoxes : List TextBox
  nextTextBoxId : Int
  rectangles : List Rectangle
  nextRectId : Int
  lines : List Line
  nextLineId : Int
  nextZIndex : Int
  currentTool : Tool
  isDrawingRect : Bool
  isDrawingLine : Bool
  drawStartX : Int
  drawStartY : Int
  drawCursorX : Int
  drawCursorY : Int
  isDraggingMouse : Bool
  activeTextBoxId : Option Int
  textCursorPos : Int
  hoveredTextBoxId : Option Int
  hoveredRectId : Option Int
  hoveredLineId : Option Int
  selectedTextBoxIds : List Int
  selectedRectIds : List Int
  selectedLineIds : List Int
  isDraggingSelection : Bool
  isResizingRect : Bool
  resizeHandle : Option ResizeHandle
  isSelecting : Bool
  isSelectionPending : Bool
  historyStack : List HistorySnapshot
  redoStack : List HistorySnapshot
  boldMode : Bool
  currentStrokeColor : EntityColor
  currentFillColor : EntityColor
deriving DecidableEq

def MAX_HISTORY : Nat := 100

def cloneTextBoxes (boxes : List TextBox) : List TextBox :=
  boxes.map fun b =>
    { id := b.id, x := b.x, y := b.y,
      chars := b.chars.map fun c => { char := c.char, bold := c.bold, color := c.color },
      zIndex := b.zIndex, strokeColor := b.strokeColor, fillColor := b.fillColor }

def cloneRectangles (rects : List Rectangle) : List Rectangle :=
  rects.map fun r =>
    { id := r.id, x1 := r.x1, y1 := r.y1, x2 := r.x2, y2 := r.y2,
      bold := r.bold, zIndex := r.zIndex,
      strokeColor := r.strokeColor, fillColor := r.fillColor }

def cloneLines (lines : List Line) : List Line :=
  lines.map fun l =>
    { id := l.id, x1 := l.x1, y1 := l.y1, x2 := l.x2, y2 := l.y2,
      bold := l.bold, zIndex := l.zIndex,
      strokeColor := l.strokeColor, fillColor := l.fillColor }

/-- The snapshot of the current document taken by `saveSnapshot`, `undo` and
`redo`: the three (deep-copied) entity collections plus the four counters. -/
def currentSnapshot (app : CanvasApp) : HistorySnapshot :=
  { textBoxes := cloneTextBoxes app.textBoxes,
    rectangles := cloneRectangles app.rectangles,
    lines := cloneLines app.lines,
    nextTextBoxId := app.nextTextBoxId,
    nextRectId := app.nextRectId,
    nextLineId := app.nextLineId,
    nextZIndex := app.nextZIndex }

def saveSnapshot (app : CanvasApp) : CanvasApp :=
  let hs := app.historyStack ++ [currentSnapshot app]
  { app with
    historyStack := if hs.length > MAX_HISTORY then hs.tail else hs,
    redoStack := [] }

def clearSelection (app : CanvasApp) : CanvasApp :=
  { app with selectedTextBoxIds := [], selectedRectIds := [], selectedLineIds := [] }

/-- The field initializers of the class; used as the default for the (never
reached) pop-from-empty case of `undo`/`redo`. -/
def defaultSnapshot : HistorySnapshot :=
  { textBoxes := [], rectangles := [], lines := [],
    nextTextBoxId := 1, nextRectId := 1, nextLineId := 1, nextZIndex := 1 }

/-- Installing a popped snapshot: replaces the document and resets the
transient UI state, as the tails of `undo`/`redo` do. -/
def installSnapshot (app : CanvasApp) (s : HistorySnapshot) : CanvasApp :=
  { app with
    textBoxes := s.textBoxes, rectangles := s.rectangles, lines := s.lines,
    nextTextBoxId := s.nextTextBoxId, nextRectId := s.nextRectId,
    nextLineId := s.nextLineId, nextZIndex := s.nextZIndex,
    activeTextBoxId := none,
    hoveredTextBoxId := none, hoveredRectId := none, hoveredLineId := none,
    selectedTextBoxIds := [], selectedRectIds := [], selectedLineIds := [] }

def undo (app : CanvasApp) : CanvasApp :=
  if app.historyStack.length = 0 then app
  else
    let cur := currentSnapshot app
    let s := app.historyStack.getLastD defaultSnapshot
    installSnapshot
      { app with
        redoStack := app.redoStack ++ [cur],
        historyStack := app.historyStack.dropLast } s

def redo (app : CanvasApp) : CanvasApp :=
  if app.redoStack.length = 0 then app
  else
    let cur := currentSnapshot app
    let s := app.redoStack.getLastD defaultSnapshot
    installSnapshot
      { app with
        historyStack := app.historyStack ++ [cur],
        redoStack := app.redoStack.dropLast } s

/-- A sample application state used to instantiate theorems with hypotheses
at concrete inputs (it mirrors the initial field values of the class, with an
80×24 terminal). -/
def sampleAppBase : CanvasApp :=
  { gridWidth := 80, gridHeight := 24,
    textBoxes := [], nextTextBoxId := 1,
    rectangles := [], nextRectId := 1,
    lines := [], nextLineId := 1,
    nextZIndex := 1,
    currentTool := Tool.move,
    isDrawingRect := false, isDrawingLine := false,
    drawStartX := 0, drawStartY := 0, drawCursorX := 0, drawCursorY := 0,
    isDraggingMouse := false,
    activeTextBoxId := none, textCursorPos := 0,
    hoveredTextBoxId := none, hoveredRectId := none, hoveredLineId := none,
    selectedTextBoxIds := [], selectedRectIds := [], selectedLineIds := [],
    isDraggingSelection := false, isResizingRect := false, resizeHandle := none,
    isSelecting := false, isSelectionPending := false,
    historyStack := [], redoStack := [],
    boldMode := false,
    currentStrokeColor := some (RGBA.fromInts 255 255 255 255),
    currentFillColor := none }

/-- Replacing the document fields (the arbitrary mutation that may happen
between two `saveSnapshot` calls). -/
def setDocument (app : CanvasApp) (d : HistorySnapshot) : CanvasApp :=
  { app with
    textBoxes := d.textBoxes, rectangles := d.rectangles, lines := d.lines,
    nextTextBoxId := d.nextTextBoxId, nextRectId := d.nextRectId,
    nextLineId := d.nextLineId, nextZIndex := d.nextZIndex }

/-- A sequence of `saveSnapshot` calls, each preceded by an arbitrary
document mutation. -/
def snapshotRun (app : CanvasApp) (docs : List HistorySnapshot) : CanvasApp :=
  docs.foldl (fun a d => saveSnapshot (setDocument a d)) app

structure SerializedColor where
  r : Int
  g : Int
  b : Int
  a : Int
deriving DecidableEq

structure SerializedTextChar where
  char : Char
  bold : Bool
  color : Option SerializedColor
deriving DecidableEq

structure SerializedTextBox where
  id : Int
  x : Int
  y : Int
  chars : List SerializedTextChar
  zIndex : Int
  strokeColor : Option SerializedColor
  fillColor : Option SerializedColor
deriving DecidableEq

structure SerializedRectangle where
  id : Int
  x1 : Int
  y1 : Int
  x2 : Int
  y2 : Int
  bold : Bool
  zIndex : Int
  strokeColor : Option SerializedColor
  fillColor : Option SerializedColor
deriving DecidableEq

structure SerializedLine where
  id : Int
  x1 : Int
  y1 : Int
  x2 : Int
  y2 : Int
  bold : Bool
  zIndex : Int
  strokeColor : Option SerializedColor
  fillColor : Option SerializedColor
deriving DecidableEq

structure TigmaFile where
  version : Int
  textBoxes : List SerializedTextBox
  rectangles : List SerializedRectangle
  lines : List SerializedLine
  nextTextBoxId : Int
  nextRectId : Int
  nextLineId : Int
  nextZIndex : Int
deriving DecidableEq

def serializeColor : EntityColor → Option SerializedColor
  | none => none
  | some color => some { r := color.r, g := color.g, b := color.b, a := color.a }

def deserializeColor : Option SerializedColor → EntityColor
  | none => none
  | some color => some (RGBA.fromValues color.r color.g color.b color.a)

def serializeTextBox (box : TextBox) : SerializedTextBox :=
  { id := box.id, x := box.x, y := box.y,
    chars := box.chars.map fun c =>
      { char := c.char, bold := c.bold, color := serializeColor c.color },
    zIndex := box.zIndex,
    strokeColor := serializeColor box.strokeColor,
    fillColor := serializeColor box.fillColor }

def deserializeTextBox (box : SerializedTextBox) : TextBox :=
  { id := box.id, x := box.x, y := box.y,
    chars := box.chars.map fun c =>
      { char := c.char, bold := c.bold, color := deserializeColor c.color },
    zIndex := box.zIndex,
    strokeColor := deserializeColor box.strokeColor,
    fillColor := deserializeColor box.fillColor }

def serializeRectangle (rect : Rectangle) : SerializedRectangle :=
  { id := rect.id, x1 := rect.x1, y1 := rect.y1, x2 := rect.x2, y2 := rect.y2,
    bold := rect.bold, zIndex := rect.zIndex,
    strokeColor := serializeColor rect.strokeColor,
    fillColor := serializeColor rect.fillColor }

def deserializeRectangle (rect : SerializedRectangle) : Rectangle :=
  { id := rect.id, x1 := rect.x1, y1 := rect.y1, x2 := rect.x2, y2 := rect.y2,
    bold := rect.bold, zIndex := rect.zIndex,
    strokeColor := deserializeColor rect.strokeColor,
    fillColor := deserializeColor rect.fillColor }

def serializeLine (line : Line) : SerializedLine :=
  { id := line.id, x1 := line.x1, y1 := line.y1, x2 := line.x2, y2 := line.y2,
    bold := line.bold, zIndex := line.zIndex,
    strokeColor := serializeColor line.strokeColor,
    fillColor := serializeColor line.fillColor }

def deserializeLine (line : SerializedLine) : Line :=
  { id := line.id, x1 := line.x1, y1 := line.y1, x2 := line.x2, y2 := line.y2,
    bold := line.bold, zIndex := line.zIndex,
    strokeColor := deserializeColor line.strokeColor,
    fillColor := deserializeColor line.fillColor }

def toFileData (app : CanvasApp) : TigmaFile :=
  { version := 1,
    textBoxes := app.textBoxes.map serializeTextBox,
    rectangles := app.rectangles.map serializeRectangle,
    lines := app.lines.map serializeLine,
    nextTextBoxId := app.nextTextBoxId,
    nextRectId := app.nextRectId,
    nextLineId := app.nextLineId,
    nextZIndex := app.nextZIndex }

def loadFromFileData (app : CanvasApp) (data : TigmaFile) : CanvasApp :=
  { app with
    textBoxes := data.textBoxes.map deserializeTextBox,
    rectangles := data.rectangles.map deserializeRectangle,
    lines := data.lines.map deserializeLine,
    nextTextBoxId := data.nextTextBoxId,
    nextRectId := data.nextRectId,
    nextLineId := data.nextLineId,
    nextZIndex := data.nextZIndex,
    activeTextBoxId := none,
    hoveredTextBoxId := none, hoveredRectId := none, hoveredLineId := none,
    selectedTextBoxIds := [], selectedRectIds := [], selectedLineIds := [],
    historyStack := [], redoStack := [] }

/-- Load a file, with the persistence I/O at its interface: the collaborator
hands the engine either a parsed record or `none` (unreadable file or
malformed JSON, the `catch` branch). -/
def loadFile (app : CanvasApp) (content : Option TigmaFile) : Bool × CanvasApp :=
  match content with
  | none => (false, app)
  | some data =>
    if data.version ≠ 1 then (false, app)
    else (true, loadFromFileData app data)

/-- An empty file record with the recognized version tag. -/
def emptyFileV1 : TigmaFile :=
  { version := 1, textBoxes := [], rectangles := [], lines := [],
    nextTextBoxId := 1, nextRectId := 1, nextLineId := 1, nextZIndex := 1 }

def colorInRange (c : RGBA) : Prop :=
  0 ≤ c.r ∧ c.r ≤ 255 ∧ 0 ≤ c.g ∧ c.g ≤ 255 ∧ 0 ≤ c.b ∧ c.b ≤ 255 ∧ 0 ≤ c.a ∧ c.a ≤ 255

instance : DecidablePred colorInRange := fun c => by
  unfold colorInRange
  infer_instance

def entityColorInRange : EntityColor → Prop
  | none => True
  | some c => colorInRange c

instance : DecidablePred entityColorInRange := fun c =>
  match c with
  | none => Decidable.isTrue trivial
  | some color => (inferInstance : Decidable (colorInRange color))

def serColorInRange : Option SerializedColor → Prop
  | none => True
  | some c =>
    0 ≤ c.r ∧ c.r ≤ 255 ∧ 0 ≤ c.g ∧ c.g ≤ 255 ∧ 0 ≤ c.b ∧ c.b ≤ 255 ∧ 0 ≤ c.a ∧ c.a ≤ 255

instance : DecidablePred serColorInRange := fun c =>
  match c with
  | none => Decidable.isTrue trivial
  | some color => by unfold serColorInRange; infer_instance

/-- All colors held by the document's entities are in channel range. -/
@[reducible]
def appColorsInRange (app : CanvasApp) : Prop :=
  (∀ b ∈ app.textBoxes, entityColorInRange b.strokeColor ∧ entityColorInRange b.fillColor
    ∧ ∀ c ∈ b.chars, entityColorInRange c.color)
  ∧ (∀ r ∈ app.rectangles, entityColorInRange r.strokeColor ∧ entityColorInRange r.fillColor)
  ∧ (∀ l ∈ app.lines, entityColorInRange l.strokeColor ∧ entityColorInRange l.fillColor)

/-- All color fields of a serialized file are `null` or have all four
channels in [0, 255]. -/
@[reducible]
def fileColorsInRange (f : TigmaFile) : Prop :=
  (∀ b ∈ f.textBoxes, serColorInRange b.strokeColor ∧ serColorInRange b.fillColor
    ∧ ∀ c ∈ b.chars, serColorInRange c.color)
  ∧ (∀ r ∈ f.rectangles, serColorInRange r.strokeColor ∧ serColorInRange r.fillColor)
  ∧ (∀ l ∈ f.lines, serColorInRange l.strokeColor ∧ serColorInRange l.fillColor)

def coloredTextBox : TextBox :=
  { id := 1, x := 0, y := 0,
    chars := [{ char := 'a', bold := false, color := some (RGBA.fromInts 255 100 100 255) },
              { char := 'b', bold := true, color := none }],
    zIndex := 1, strokeColor := some (RGBA.fromInts 255 255 255 255), fillColor := none }

def coloredRect : Rectangle :=
  { id := 1, x1 := 3, y1 := 3, x2 := 6, y2 := 5, bold := false, zIndex := 2,
    strokeColor := none, fillColor := some (RGBA.fromInts 30 80 30 255) }

def coloredLine : Line :=
  { id := 1, x1 := 0, y1 := 5, x2 := 4, y2 := 9, bold := false, zIndex := 3,
    strokeColor := some (RGBA.fromInts 0 0 0 255), fillColor := none }

/-- A small document holding opaque and transparent colors. -/
def coloredApp : CanvasApp :=
  { sampleAppBase with
    textBoxes := [coloredTextBox],
    rectangles := [coloredRect],
    lines := [coloredLine] }

def getTextLength (box : TextBox) : Int :=
  box.chars.length

def commitActiveTextBox (app : CanvasApp) : CanvasApp :=
  match app.activeTextBoxId with
  | none => app
  | some tid =>
    let app1 :=
      match app.textBoxes.find? (fun b => b.id == tid) with
      | some b =>
        if getTextLength b = 0 then
          { app with textBoxes := app.textBoxes.filter (fun b2 => b2.id != tid) }
        else app
      | none => app
    { app1 with activeTextBoxId := none, textCursorPos := 0 }

def setTool (app : CanvasApp) (tool : Tool) : CanvasApp :=
  let app1 := if app.activeTextBoxId ≠ none then commitActiveTextBox app else app
  let app2 :=
    { app1 with
      isDrawingRect := false, isDrawingLine := false,
      isSelecting := false, isSelectionPending := false,
      isDraggingMouse := false, currentTool := tool }
  if tool ≠ Tool.move then
    { app2 with
      hoveredTextBoxId := none, hoveredRectId := none, hoveredLineId := none,
      selectedTextBoxIds := [], selectedRectIds := [], selectedLineIds := [] }
  else app2

def selectTextBox (app : CanvasApp) (id : Int) (addToSelection : Bool) : CanvasApp :=
  let app1 := if addToSelection = false then clearSelection app else app
  { app1 with selectedTextBoxIds :=
      if id ∈ app1.selectedTextBoxIds then app1.selectedTextBoxIds
      else app1.selectedTextBoxIds ++ [id] }

def selectRect (app : CanvasApp) (id : Int) (addToSelection : Bool) : CanvasApp :=
  let app1 := if addToSelection = false then clearSelection app else app
  { app1 with selectedRectIds :=
      if id ∈ app1.selectedRectIds then app1.selectedRectIds
      else app1.selectedRectIds ++ [id] }

def selectLine (app : CanvasApp) (id : Int) (addToSelection : Bool) : CanvasApp :=
  let app1 := if addToSelection = false then clearSelection app else app
  { app1 with selectedLineIds :=
      if id ∈ app1.selectedLineIds then app1.selectedLineIds
      else app1.selectedLineIds ++ [id] }

def commitRectangle (app : CanvasApp) : CanvasApp :=
  if app.isDrawingRect = false then app
  else
    let x1 := min app.drawStartX app.drawCursorX
    let x2 := max app.drawStartX app.drawCursorX
    let y1 := min app.drawStartY app.drawCursorY
    let y2 := max app.drawStartY app.drawCursorY
    let app1 :=
      if x2 > x1 ∨ y2 > y1 then
        let a := saveSnapshot app
        let rect : Rectangle :=
          { id := a.nextRectId, x1 := x1, y1 := y1, x2 := x2, y2 := y2,
            bold := a.boldMode, zIndex := a.nextZIndex,
            strokeColor := a.currentStrokeColor, fillColor := a.currentFillColor }
        let a2 :=
          { a with
            nextRectId := a.nextRectId + 1, nextZIndex := a.nextZIndex + 1,
            rectangles := a.rectangles ++ [rect] }
        selectRect a2 rect.id false
      else app
    setTool { app1 with isDrawingRect := false } Tool.move

/-- Updates the first element satisfying `p` in place: the embedding of a JS
`array.find(...)` followed by a mutation of the found element. -/
def updFirst (p : α → Bool) (f : α → α) : List α → List α
  | [] => []
  | a :: as => if p a then f a :: as else a :: updFirst p f as

def resizeRect (app : CanvasApp) (id mouseX mouseY : Int) : CanvasApp :=
  match app.rectangles.find? (fun r => r.id == id), app.resizeHandle with
  | some _, some handle =>
    let mx := max 0 (min (app.gridWidth - 1) mouseX)
    let my := max 0 (min (app.gridHeight - 1) mouseY)
    let upd : Rectangle → Rectangle := fun r =>
      match handle with
      | .nw => { r with x1 := mx, y1 := my }
      | .ne => { r with x2 := mx, y1 := my }
      | .sw => { r with x1 := mx, y2 := my }
      | .se => { r with x2 := mx, y2 := my }
      | .n => { r with y1 := my }
      | .s => { r with y2 := my }
      | .w => { r with x1 := mx }
      | .e => { r with x2 := mx }
    { app with rectangles := updFirst (fun r => r.id == id) upd app.rectangles }
  | _, _ => app

/-- The drag that the claim describes: anchor at the lower-right cell (5,5),
release at the upper-left cell (1,1). -/
def dragNWApp : CanvasApp :=
  { sampleAppBase with
    isDrawingRect := true,
    drawStartX := 5, drawStartY := 5, drawCursorX := 1, drawCursorY := 1 }

def resizeStartRect : Rectangle :=
  { id := 1, x1 := 2, y1 := 2, x2 := 6, y2 := 4, bold := false, zIndex := 1,
    strokeColor := none, fillColor := none }

/-- A selected rectangle (2,2)–(6,4) mid-resize via its east handle. -/
def resizeApp : CanvasApp :=
  { sampleAppBase with
    rectangles := [resizeStartRect],
    selectedRectIds := [1],
    isResizingRect := true, resizeHandle := some ResizeHandle.e }

/-- The rectangle that `commitRectangle` creates from `dragNWApp`. -/
def dragNWRect : Rectangle :=
  { id := 1, x1 := 1, y1 := 1, x2 := 5, y2 := 5, bold := false, zIndex := 1,
    strokeColor := some (RGBA.fromInts 255 255 255 255), fillColor := none }

def moveSelection (app : CanvasApp) (dx dy : Int) : CanvasApp :=
  let tbs := app.selectedTextBoxIds.foldl
    (fun bs i => updFirst (fun b => b.id == i)
      (fun b => { b with x := b.x + dx, y := b.y + dy }) bs)
    app.textBoxes
  let rs := app.selectedRectIds.foldl
    (fun rs2 i => updFirst (fun r => r.id == i)
      (fun r => { r with x1 := r.x1 + dx, y1 := r.y1 + dy,
                         x2 := r.x2 + dx, y2 := r.y2 + dy }) rs2)
    app.rectangles
  let ls := app.selectedLineIds.foldl
    (fun ls2 i => updFirst (fun l => l.id == i)
      (fun l => { l with x1 := l.x1 + dx, y1 := l.y1 + dy,
                         x2 := l.x2 + dx, y2 := l.y2 + dy }) ls2)
    app.lines
  { app with textBoxes := tbs, rectangles := rs, lines := ls }

def cornerRect : Rectangle :=
  { id := 1, x1 := 0, y1 := 0, x2 := 1, y2 := 1, bold := false, zIndex := 1,
    strokeColor := none, fillColor := none }

/-- A document whose only rectangle (0,0)–(1,1) is selected. -/
def moveCexApp : CanvasApp :=
  { sampleAppBase with rectangles := [cornerRect], selectedRectIds := [1] }

/-- The body of the `while (true)` loop of `getLinePoints`, with explicit
fuel.  Each iteration pushes the current cell, stops at the far endpoint,
and otherwise advances `x` and/or `y` exactly as the source does. -/
def getLinePointsAux (dx dy sx sy x2 y2 : Int) : Nat → Int → Int → Int → List (Int × Int)
  | 0, _, _, _ => []
  | Nat.succ fuel, x, y, err =>
    (x, y) ::
      (if x = x2 ∧ y = y2 then []
      else
        let e2 := 2 * err
        let xn := if e2 > -dy then x + sx else x
        let err1 := if e2 > -dy then err - dy else err
        let yn := if e2 < dx then y + sy else y
        let err2 := if e2 < dx then err1 + dx else err1
        getLinePointsAux dx dy sx sy x2 y2 fuel xn yn err2)

/-- The Bresenham line algorithm as in the source; the fuel `dx + dy + 1`
bounds the iteration count (each iteration moves `x` or `y` one cell toward
the endpoint, as proved below). -/
def getLinePoints (x1 y1 x2 y2 : Int) : List (Int × Int) :=
  let dx := |x2 - x1|
  let dy := |y2 - y1|
  let sx : Int := if x1 < x2 then 1 else -1
  let sy : Int := if y1 < y2 then 1 else -1
  getLinePointsAux dx dy sx sy x2 y2 (dx + dy + 1).toNat x1 y1 (dx - dy)

inductive EntityType where
  | text
  | rect
  | line
deriving DecidableEq

structure SelObj where
  type : EntityType
  zIndex : Int
  id : Int
deriving DecidableEq

def getSelectedObject (app : CanvasApp) : Option SelObj :=
  match (if app.selectedTextBoxIds.length = 1 then
      app.textBoxes.find? (fun b => b.id == app.selectedTextBoxIds.headD 0)
    else none) with
  | some b => some ⟨EntityType.text, b.zIndex, b.id⟩
  | none =>
    match (if app.selectedRectIds.length = 1 then
        app.rectangles.find? (fun r => r.id == app.selectedRectIds.headD 0)
      else none) with
    | some r => some ⟨EntityType.rect, r.zIndex, r.id⟩
    | none =>
      match (if app.selectedLineIds.length = 1 then
          app.lines.find? (fun l => l.id == app.selectedLineIds.headD 0)
        else none) with
      | some l => some ⟨EntityType.line, l.zIndex, l.id⟩
      | none => none

/-- The unsorted list of all z-indices of the document, text boxes first,
then rectangles, then lines — the array `getAllZIndices` builds before
sorting. -/
def allZ (app : CanvasApp) : List Int :=
  app.textBoxes.map TextBox.zIndex ++ app.rectangles.map Rectangle.zIndex
    ++ app.lines.map Line.zIndex

def getAllZIndices (app : CanvasApp) : List Int :=
  (allZ app).insertionSort (· ≤ ·)

/-- The swap body shared by `moveLayerDown` and `moveLayerUp` (the source
repeats it verbatim at both call sites with `lowerZ` resp. `higherZ` for
`nz`): give the entity holding z-index `nz` the z-index of the selected entity,
then give the selected entity (found by id in its own kind) `nz`. -/
def applyZSwap (app : CanvasApp) (selected : SelObj) (nz : Int) : CanvasApp :=
  let a2 :=
    { app with
      textBoxes := updFirst (fun b => b.zIndex == nz)
        (fun b => { b with zIndex := selected.zIndex }) app.textBoxes,
      rectangles := updFirst (fun r => r.zIndex == nz)
        (fun r => { r with zIndex := selected.zIndex }) app.rectangles,
      lines := updFirst (fun l => l.zIndex == nz)
        (fun l => { l with zIndex := selected.zIndex }) app.lines }
  match selected.type with
  | EntityType.text =>
    let tbs2 :=
      updFirst (fun b => b.id == selected.id) (fun b => { b with zIndex := nz }) a2.textBoxes
    { a2 with textBoxes := tbs2 }
  | EntityType.rect =>
    let rs2 :=
      updFirst (fun r => r.id == selected.id) (fun r => { r with zIndex := nz }) a2.rectangles
    { a2 with rectangles := rs2 }
  | EntityType.line =>
    let ls2 :=
      updFirst (fun l => l.id == selected.id) (fun l => { l with zIndex := nz }) a2.lines
    { a2 with lines := ls2 }

def moveLayerDown (app : CanvasApp) : CanvasApp :=
  match getSelectedObject app with
  | none => app
  | some selected =>
    let allZIndices := getAllZIndices app
    match allZIndices.findIdx? (fun z => z == selected.zIndex) with
    | none => app
    | some currentIndex =>
      if currentIndex = 0 then app
      else
        let lowerZ := allZIndices.getD (currentIndex - 1) 0
        applyZSwap (saveSnapshot app) selected lowerZ

def moveLayerUp (app : CanvasApp) : CanvasApp :=
  match getSelectedObject app with
  | none => app
  | some selected =>
    let allZIndices := getAllZIndices app
    match allZIndices.findIdx? (fun z => z == selected.zIndex) with
    | none => app
    | some currentIndex =>
      if currentIndex + 1 ≥ allZIndices.length then app
      else
        let higherZ := allZIndices.getD (currentIndex + 1) 0
        applyZSwap (saveSnapshot app) selected higherZ

/-- The permutation of z-index values that a layer move performs: the
value `a` of the selected entity and the value `b` of its neighbor are exchanged,
every other value is fixed. -/
def zswapFn (a b z : Int) : Int :=
  if z = a then b else if z = b then a else z

def layerRect1 : Rectangle :=
  { id := 1, x1 := 0, y1 := 0, x2 := 2, y2 := 2, bold := false, zIndex := 1,
    strokeColor := none, fillColor := none }

def layerRect2 : Rectangle :=
  { id := 2, x1 := 4, y1 := 0, x2 := 6, y2 := 2, bold := false, zIndex := 2,
    strokeColor := none, fillColor := none }

/-- Two rectangles with z-indices 1 and 2; the one with z-index 1 is the
single selected entity. -/
def layerApp : CanvasApp :=
  { sampleAppBase with
    rectangles := [layerRect1, layerRect2],
    selectedRectIds := [1] }

theorem cloneTextBoxes_eq (boxes : List TextBox) : cloneTextBoxes boxes = boxes := by
  unfold cloneTextBoxes
  induction boxes with
  | nil => rfl
  | cons b t ih => simp

theorem cloneRectangles_eq (rects : List Rectangle) : cloneRectangles rects = rects := by
  unfold cloneRectangles
  induction rects with
  | nil => rfl
  | cons r t ih => simp

theorem cloneLines_eq (lines : List Line) : cloneLines lines = lines := by
  unfold cloneLines
  induction lines with
  | nil => rfl
  | cons l t ih => simp

theorem currentSnapshot_eq (app : CanvasApp) :
    currentSnapshot app =
      { textBoxes := app.textBoxes, rectangles := app.rectangles, lines := app.lines,
        nextTextBoxId := app.nextTextBoxId, nextRectId := app.nextRectId,
        nextLineId := app.nextLineId, nextZIndex := app.nextZIndex } := by
  simp [currentSnapshot, cloneTextBoxes_eq, cloneRectangles_eq, cloneLines_eq]

/-- C1: `undo()` immediately followed by `redo()` restores the exact document
state (the three entity collections and the four counters) that held just
before the undo, for any history depth; `undo()` is a no-op on an empty undo
stack and `redo()` is a no-op on an empty redo stack. -/
theorem undo_then_redo_restores (app : CanvasApp) :
    (app.historyStack ≠ [] → currentSnapshot (redo (undo app)) = currentSnapshot app)
    ∧ (app.historyStack = [] → undo app = app)
    ∧ (app.redoStack = [] → redo app = app) := by
  refine ⟨?_, ?_, ?_⟩
  · intro h
    have hlen : app.historyStack.length ≠ 0 := by
      simpa [List.length_eq_zero] using h
    have hredo :
        (undo app).redoStack = app.redoStack ++ [currentSnapshot app] := by
      simp [undo, hlen, installSnapshot]
    have hlenr : (undo app).redoStack.length ≠ 0 := by
      simp [hredo]
    have hlast :
        (undo app).redoStack.getLastD defaultSnapshot = currentSnapshot app := by
      rw [hredo]
      simp [List.getLastD_concat]
    simp only [redo, if_neg hlenr, hlast]
    simp [installSnapshot, currentSnapshot_eq]
  · intro h
    simp [undo, h]
  · intro h
    simp [redo, h]

/-- Witness for C1 at concrete inputs: a state with a one-entry undo stack,
and the no-op cases on empty stacks. -/
theorem undo_then_redo_restores_witness :
    (currentSnapshot
        (redo (undo { sampleAppBase with historyStack := [defaultSnapshot] })) =
      currentSnapshot { sampleAppBase with historyStack := [defaultSnapshot] })
    ∧ undo sampleAppBase = sampleAppBase
    ∧ redo sampleAppBase = sampleAppBase :=
  ⟨(undo_then_redo_restores { sampleAppBase with historyStack := [defaultSnapshot] }).1
      (by decide),
   (undo_then_redo_restores sampleAppBase).2.1 rfl,
   (undo_then_redo_restores sampleAppBase).2.2 rfl⟩

theorem saveSnapshot_length_le (app : CanvasApp)
    (h : app.historyStack.length ≤ MAX_HISTORY) :
    (saveSnapshot app).historyStack.length ≤ MAX_HISTORY := by
  have hlen : (app.historyStack ++ [currentSnapshot app]).length
      = app.historyStack.length + 1 := by simp
  simp only [saveSnapshot]
  split
  · simp only [List.length_tail, hlen]
    omega
  · next hc =>
    rw [hlen] at hc ⊢
    omega

/-- C3: the undo stack never exceeds 100 entries over any sequence of
`snapshot()` calls; pushing onto a full stack discards the oldest entry; and
every `snapshot()` call clears the redo stack. -/
theorem snapshot_history_bounded (app : CanvasApp) (docs : List HistorySnapshot) :
    (app.historyStack.length ≤ MAX_HISTORY →
      (snapshotRun app docs).historyStack.length ≤ MAX_HISTORY)
    ∧ (app.historyStack.length = MAX_HISTORY →
      (saveSnapshot app).historyStack = app.historyStack.tail ++ [currentSnapshot app])
    ∧ (saveSnapshot app).redoStack = [] := by
  refine ⟨?_, ?_, ?_⟩
  · intro h
    induction docs generalizing app with
    | nil => simpa [snapshotRun] using h
    | cons d rest ih =>
      have hstep : (saveSnapshot (setDocument app d)).historyStack.length ≤ MAX_HISTORY := by
        apply saveSnapshot_length_le
        simpa [setDocument] using h
      simpa [snapshotRun] using ih _ hstep
  · intro h
    have hne : app.historyStack ≠ [] := by
      intro hnil
      rw [hnil] at h
      simp [MAX_HISTORY] at h
    have hc : (app.historyStack ++ [currentSnapshot app]).length > MAX_HISTORY := by
      simp [h]
    simp only [saveSnapshot, if_pos hc]
    obtain ⟨a, t, hat⟩ := List.exists_cons_of_ne_nil hne
    rw [hat]
    simp
  · simp [saveSnapshot]

/-- Witness for C3: a full (100-entry) undo stack. -/
theorem snapshot_history_bounded_witness :
    ((snapshotRun
        { sampleAppBase with historyStack := List.replicate 100 defaultSnapshot }
        [defaultSnapshot]).historyStack.length ≤ MAX_HISTORY)
    ∧ ((saveSnapshot
        { sampleAppBase with historyStack := List.replicate 100 defaultSnapshot }).historyStack =
      ({ sampleAppBase with
          historyStack := List.replicate 100 defaultSnapshot } : CanvasApp).historyStack.tail ++
        [currentSnapshot
          { sampleAppBase with historyStack := List.replicate 100 defaultSnapshot }]) :=
  ⟨(snapshot_history_bounded
      { sampleAppBase with historyStack := List.replicate 100 defaultSnapshot }
      [defaultSnapshot]).1 (by simp [MAX_HISTORY]),
   (snapshot_history_bounded
      { sampleAppBase with historyStack := List.replicate 100 defaultSnapshot }
      [defaultSnapshot]).2.1 (by simp [MAX_HISTORY])⟩

theorem deserializeColor_serializeColor (c : EntityColor) :
    deserializeColor (serializeColor c) = c := by
  cases c with
  | none => rfl
  | some color => rfl

theorem deserializeTextBox_serializeTextBox (b : TextBox) :
    deserializeTextBox (serializeTextBox b) = b := by
  have hch : b.chars.map
      ((fun c => ({ char := c.char, bold := c.bold, color := deserializeColor c.color } :
          TextChar)) ∘
        fun c => ({ char := c.char, bold := c.bold, color := serializeColor c.color } :
          SerializedTextChar)) = b.chars := by
    rw [List.map_congr_left
      (g := fun c => c)
      (fun c _ => by simp [deserializeColor_serializeColor])]
    exact List.map_id b.chars
  simp [deserializeTextBox, serializeTextBox, deserializeColor_serializeColor,
    List.map_map, hch]

theorem deserializeRectangle_serializeRectangle (r : Rectangle) :
    deserializeRectangle (serializeRectangle r) = r := by
  simp [deserializeRectangle, serializeRectangle, deserializeColor_serializeColor]

theorem deserializeLine_serializeLine (l : Line) :
    deserializeLine (serializeLine l) = l := by
  simp [deserializeLine, serializeLine, deserializeColor_serializeColor]

/-- C2: deserializing the serialized form of any document (transparent and
opaque colors, empty and non-empty text runs, single-point lines included)
reproduces the document exactly: all entity fields and all four counters. -/
theorem load_toFileData_roundtrip (app : CanvasApp) :
    currentSnapshot (loadFromFileData app (toFileData app)) = currentSnapshot app := by
  have h1 : app.textBoxes.map (deserializeTextBox ∘ serializeTextBox) = app.textBoxes := by
    rw [List.map_congr_left (g := fun b => b)
      (fun b _ => by simp [deserializeTextBox_serializeTextBox])]
    exact List.map_id _
  have h2 : app.rectangles.map (deserializeRectangle ∘ serializeRectangle)
      = app.rectangles := by
    rw [List.map_congr_left (g := fun r => r)
      (fun r _ => by simp [deserializeRectangle_serializeRectangle])]
    exact List.map_id _
  have h3 : app.lines.map (deserializeLine ∘ serializeLine) = app.lines := by
    rw [List.map_congr_left (g := fun l => l)
      (fun l _ => by simp [deserializeLine_serializeLine])]
    exact List.map_id _
  simp [currentSnapshot_eq, loadFromFileData, toFileData, List.map_map, h1, h2, h3]

/-- C7: loading a record whose version tag is not the recognized value 1
fails and changes nothing (likewise an unreadable or unparsable file); on
success the loaded record fully replaces the document and both history
stacks are cleared. -/
theorem loadFile_spec (app : CanvasApp) (data : TigmaFile) :
    (data.version ≠ 1 → loadFile app (some data) = (false, app))
    ∧ loadFile app none = (false, app)
    ∧ (data.version = 1 →
      (loadFile app (some data)).1 = true
      ∧ (loadFile app (some data)).2.historyStack = []
      ∧ (loadFile app (some data)).2.redoStack = []
      ∧ currentSnapshot (loadFile app (some data)).2 =
        { textBoxes := data.textBoxes.map deserializeTextBox,
          rectangles := data.rectangles.map deserializeRectangle,
          lines := data.lines.map deserializeLine,
          nextTextBoxId := data.nextTextBoxId,
          nextRectId := data.nextRectId,
          nextLineId := data.nextLineId,
          nextZIndex := data.nextZIndex }) := by
  refine ⟨?_, rfl, ?_⟩
  · intro h
    simp [loadFile, h]
  · intro h
    refine ⟨?_, ?_, ?_, ?_⟩ <;>
      simp [loadFile, h, loadFromFileData, currentSnapshot_eq]

/-- Witness for C7: version 2 is rejected without a state change; version 1
replaces the document and clears both stacks. -/
theorem loadFile_spec_witness :
    loadFile sampleAppBase (some { emptyFileV1 with version := 2 }) = (false, sampleAppBase)
    ∧ ((loadFile sampleAppBase (some emptyFileV1)).1 = true
      ∧ (loadFile sampleAppBase (some emptyFileV1)).2.historyStack = []
      ∧ (loadFile sampleAppBase (some emptyFileV1)).2.redoStack = []
      ∧ currentSnapshot (loadFile sampleAppBase (some emptyFileV1)).2 =
        { textBoxes := emptyFileV1.textBoxes.map deserializeTextBox,
          rectangles := emptyFileV1.rectangles.map deserializeRectangle,
          lines := emptyFileV1.lines.map deserializeLine,
          nextTextBoxId := emptyFileV1.nextTextBoxId,
          nextRectId := emptyFileV1.nextRectId,
          nextLineId := emptyFileV1.nextLineId,
          nextZIndex := emptyFileV1.nextZIndex }) :=
  ⟨(loadFile_spec sampleAppBase { emptyFileV1 with version := 2 }).1 (by decide),
   (loadFile_spec sampleAppBase emptyFileV1).2.2 rfl⟩

theorem serializeColor_inRange (c : EntityColor) (h : entityColorInRange c) :
    serColorInRange (serializeColor c) := by
  cases c with
  | none => trivial
  | some color =>
    simpa [serializeColor, serColorInRange] using h

/-- C9: every non-null color field of a serialized document is a record
`r,g,b,a` with all four channels in the integer range [0,255]; transparent
colors serialize as null.  The in-range hypothesis on the document holds in
particular for every color of the two palettes. -/
theorem toFileData_colors_in_range (app : CanvasApp) (h : appColorsInRange app) :
    fileColorsInRange (toFileData app)
    ∧ serializeColor none = none
    ∧ (∀ c ∈ STROKE_PALETTE, entityColorInRange c)
    ∧ (∀ c ∈ FILL_PALETTE, entityColorInRange c) := by
  obtain ⟨ht, hr, hl⟩ := h
  refine ⟨⟨?_, ?_, ?_⟩, rfl, by decide, by decide⟩
  · intro sb hsb
    simp only [toFileData, List.mem_map] at hsb
    obtain ⟨b, hb, rfl⟩ := hsb
    obtain ⟨h1, h2, h3⟩ := ht b hb
    refine ⟨serializeColor_inRange _ h1, serializeColor_inRange _ h2, ?_⟩
    intro sc hsc
    simp only [serializeTextBox, List.mem_map] at hsc
    obtain ⟨c, hc, rfl⟩ := hsc
    exact serializeColor_inRange _ (h3 c hc)
  · intro sr hsr
    simp only [toFileData, List.mem_map] at hsr
    obtain ⟨r, hrm, rfl⟩ := hsr
    obtain ⟨h1, h2⟩ := hr r hrm
    exact ⟨serializeColor_inRange _ h1, serializeColor_inRange _ h2⟩
  · intro sl hsl
    simp only [toFileData, List.mem_map] at hsl
    obtain ⟨l, hlm, rfl⟩ := hsl
    obtain ⟨h1, h2⟩ := hl l hlm
    exact ⟨serializeColor_inRange _ h1, serializeColor_inRange _ h2⟩

/-- Witness for C9 at a concrete colored document. -/
theorem toFileData_colors_in_range_witness :
    fileColorsInRange (toFileData coloredApp)
    ∧ serializeColor none = none
    ∧ (∀ c ∈ STROKE_PALETTE, entityColorInRange c)
    ∧ (∀ c ∈ FILL_PALETTE, entityColorInRange c) :=
  toFileData_colors_in_range coloredApp (by decide)

theorem commitActiveTextBox_rectangles (app : CanvasApp) :
    (commitActiveTextBox app).rectangles = app.rectangles := by
  unfold commitActiveTextBox
  split
  · rfl
  · split
    · split <;> rfl
    · rfl

theorem setTool_rectangles (app : CanvasApp) (t : Tool) :
    (setTool app t).rectangles = app.rectangles := by
  unfold setTool
  by_cases h : app.activeTextBoxId ≠ none <;> by_cases h2 : t ≠ Tool.move <;>
    simp [h, h2, commitActiveTextBox_rectangles]

/-- Counterexample to C8: a create-drag from a lower-right anchor (5,5) to an
upper-left release point (1,1) stores the rectangle with reordered corners
x1 = 1 < x2 = 5 and y1 = 1 < y2 = 5, not with x1 > x2 or y1 > y2. -/
theorem commitRectangle_normalizes_counterexample :
    (commitRectangle dragNWApp).rectangles.map (fun r => (r.x1, r.y1, r.x2, r.y2))
      = [(1, 1, 5, 5)] := by decide

/-- C8 (amended): `commitRectangle` always stores normalized corners
(x1 ≤ x2 and y1 ≤ y2, whatever the drag direction); unnormalized corners
arise only from `resizeRect`, which stores the dragged corner without
reordering — dragging the east handle of the rectangle (2,2)–(6,4) to x = 0
stores x2 = 0 < x1 = 2. -/
theorem commitRectangle_normalizes (app : CanvasApp) :
    (∀ r ∈ (commitRectangle app).rectangles,
      r ∈ app.rectangles ∨ (r.x1 ≤ r.x2 ∧ r.y1 ≤ r.y2))
    ∧ (resizeRect resizeApp 1 0 3).rectangles.map (fun r => (r.x1, r.y1, r.x2, r.y2))
        = [(2, 2, 0, 4)] := by
  constructor
  · intro r hr
    by_cases hd : app.isDrawingRect = false
    · rw [commitRectangle, if_pos hd] at hr
      exact Or.inl hr
    · simp only [commitRectangle, if_neg hd, setTool_rectangles] at hr
      by_cases hc : max app.drawStartX app.drawCursorX > min app.drawStartX app.drawCursorX
          ∨ max app.drawStartY app.drawCursorY > min app.drawStartY app.drawCursorY
      · simp only [if_pos hc, selectRect, clearSelection, saveSnapshot] at hr
        rcases List.mem_append.mp hr with hr | hr
        · exact Or.inl hr
        · refine Or.inr ?_
          rw [List.mem_singleton.mp hr]
          exact ⟨inf_le_sup, inf_le_sup⟩
      · simp only [if_neg hc] at hr
        exact Or.inl hr
  · decide

/-- Witness for C8's amended statement: the rectangle created by the
lower-right-to-upper-left drag is normalized. -/
theorem commitRectangle_normalizes_witness :
    dragNWRect ∈ dragNWApp.rectangles
    ∨ (dragNWRect.x1 ≤ dragNWRect.x2 ∧ dragNWRect.y1 ≤ dragNWRect.y2) :=
  (commitRectangle_normalizes dragNWApp).1 dragNWRect (by decide)

theorem map_if_key_id {α : Type} (key : α → Int) (f : α → α) (i : Int) (t : List α)
    (h : ∀ b ∈ t, ¬ key b = i) :
    t.map (fun a => if key a = i then f a else a) = t := by
  rw [List.map_congr_left (g := fun a => a) (fun a ha => by simp [h a ha])]
  exact List.map_id t

theorem updFirst_eq_map {α : Type} (key : α → Int) (f : α → α) (i : Int) (l : List α)
    (hl : (l.map key).Nodup) :
    updFirst (fun a => key a == i) f l
      = l.map (fun a => if key a = i then f a else a) := by
  induction l with
  | nil => rfl
  | cons a t ih =>
    simp only [List.map_cons, List.nodup_cons] at hl
    cases hba : (key a == i) with
    | true =>
      have h : key a = i := by simpa using hba
      have hnone : ∀ b ∈ t, ¬ key b = i := by
        intro b hb hbi
        have hmem : key b ∈ t.map key := List.mem_map.mpr ⟨b, hb, rfl⟩
        rw [hbi, ← h] at hmem
        exact hl.1 hmem
      simp only [updFirst, hba]
      rw [if_pos trivial, List.map_cons, if_pos h, map_if_key_id key f i t hnone]
    | false =>
      have h : ¬ key a = i := by simpa using hba
      simp only [updFirst, hba]
      rw [if_neg Bool.false_ne_true, List.map_cons, if_neg h, ih hl.2]

theorem foldl_updFirst_eq_map {α : Type} (key : α → Int) (f : α → α)
    (hf : ∀ a, key (f a) = key a) (sel : List Int) (l : List α)
    (hsel : sel.Nodup) (hl : (l.map key).Nodup) :
    sel.foldl (fun bs i => updFirst (fun a => key a == i) f bs) l
      = l.map (fun a => if key a ∈ sel then f a else a) := by
  induction sel generalizing l with
  | nil =>
    simp only [List.foldl_nil, List.not_mem_nil, if_false]
    exact (List.map_id l).symm
  | cons i rest ih =>
    simp only [List.nodup_cons] at hsel
    rw [List.foldl_cons, updFirst_eq_map key f i l hl]
    have hkeys : ((l.map fun a => if key a = i then f a else a).map key) = l.map key := by
      rw [List.map_map]
      exact List.map_congr_left (fun a _ => by
        by_cases h : key a = i <;> simp [h, hf])
    rw [ih _ hsel.2 (hkeys ▸ hl), List.map_map]
    refine List.map_congr_left (fun a _ => ?_)
    by_cases h1 : key a = i
    · have : key (f a) ∉ rest := by rw [hf, h1]; exact hsel.1
      simp [Function.comp, h1, this]
    · by_cases h2 : key a ∈ rest <;> simp [Function.comp, h1, h2]

/-- C4 (amended): the batch move of the selected entities translates each
selected entity by exactly (dx, dy); no clamping to the canvas occurs, so
coordinates may leave the canvas bounds. -/
theorem moveSelection_translates (app : CanvasApp) (dx dy : Int)
    (hselT : app.selectedTextBoxIds.Nodup)
    (hidT : (app.textBoxes.map TextBox.id).Nodup)
    (hselR : app.selectedRectIds.Nodup)
    (hidR : (app.rectangles.map Rectangle.id).Nodup)
    (hselL : app.selectedLineIds.Nodup)
    (hidL : (app.lines.map Line.id).Nodup) :
    (moveSelection app dx dy).textBoxes
      = app.textBoxes.map (fun b =>
          if b.id ∈ app.selectedTextBoxIds then { b with x := b.x + dx, y := b.y + dy } else b)
    ∧ (moveSelection app dx dy).rectangles
      = app.rectangles.map (fun r =>
          if r.id ∈ app.selectedRectIds then
            { r with x1 := r.x1 + dx, y1 := r.y1 + dy, x2 := r.x2 + dx, y2 := r.y2 + dy }
          else r)
    ∧ (moveSelection app dx dy).lines
      = app.lines.map (fun l =>
          if l.id ∈ app.selectedLineIds then
            { l with x1 := l.x1 + dx, y1 := l.y1 + dy, x2 := l.x2 + dx, y2 := l.y2 + dy }
          else l) := by
  refine ⟨?_, ?_, ?_⟩
  · exact foldl_updFirst_eq_map TextBox.id
      (fun b => { b with x := b.x + dx, y := b.y + dy })
      (fun a => rfl) app.selectedTextBoxIds app.textBoxes hselT hidT
  · exact foldl_updFirst_eq_map Rectangle.id
      (fun r => { r with x1 := r.x1 + dx, y1 := r.y1 + dy, x2 := r.x2 + dx, y2 := r.y2 + dy })
      (fun a => rfl) app.selectedRectIds app.rectangles hselR hidR
  · exact foldl_updFirst_eq_map Line.id
      (fun l => { l with x1 := l.x1 + dx, y1 := l.y1 + dy, x2 := l.x2 + dx, y2 := l.y2 + dy })
      (fun a => rfl) app.selectedLineIds app.lines hselL hidL

/-- Counterexample to C4: moving the selected rectangle (0,0)–(1,1) by
(dx, dy) = (-5, 0) stores corner x-coordinates -5 and -4, strictly outside
the canvas (whose cells have x ≥ 0): `moveSelection` does not clamp. -/
theorem moveSelection_not_clamped_counterexample :
    (moveSelection moveCexApp (-5) 0).rectangles.map (fun r => (r.x1, r.y1, r.x2, r.y2))
      = [(-5, 0, -4, 1)]
    ∧ ((-5 : Int) < 0 ∧ 0 < moveCexApp.gridWidth) := by decide

/-- Witness for C4's amended statement at the concrete document. -/
theorem moveSelection_translates_witness :
    (moveSelection moveCexApp (-5) 0).rectangles
      = moveCexApp.rectangles.map (fun r =>
          if r.id ∈ moveCexApp.selectedRectIds then
            { r with x1 := r.x1 + -5, y1 := r.y1 + 0, x2 := r.x2 + -5, y2 := r.y2 + 0 }
          else r) :=
  (moveSelection_translates moveCexApp (-5) 0 (by decide) (by decide) (by decide)
    (by decide) (by decide) (by decide)).2.1

theorem getLast?_cons_of_ne_nil {α : Type} (a : α) {l : List α} (h : l ≠ []) :
    (a :: l).getLast? = l.getLast? := by
  cases l with
  | nil => exact absurd rfl h
  | cons b t => exact List.getLast?_cons_cons

/-- The loop invariant of `getLinePointsAux`: writing the position as
`(x1 + sx*u, y1 + sy*v)` with `0 ≤ u ≤ dx` and `0 ≤ v ≤ dy`, the error term
is `dx - dy - u*dy + v*dx`, and with enough fuel the produced list starts at
the current cell and ends exactly at `(x2, y2)`. -/
theorem bresAux_head_last (dx dy sx sy x1 y1 x2 y2 : Int)
    (hsx : sx = 1 ∨ sx = -1) (hsy : sy = 1 ∨ sy = -1)
    (hdx : 0 ≤ dx) (hdy : 0 ≤ dy)
    (hx2 : x2 = x1 + sx * dx) (hy2 : y2 = y1 + sy * dy) :
    ∀ (fuel : Nat) (u v err : Int),
      0 ≤ u → u ≤ dx → 0 ≤ v → v ≤ dy →
      err = dx - dy - u * dy + v * dx →
      dx - u + (dy - v) < (fuel : Int) →
      (getLinePointsAux dx dy sx sy x2 y2 fuel (x1 + sx * u) (y1 + sy * v) err).head?
          = some (x1 + sx * u, y1 + sy * v)
      ∧ (getLinePointsAux dx dy sx sy x2 y2 fuel (x1 + sx * u) (y1 + sy * v) err).getLast?
          = some (x2, y2) := by
  intro fuel
  induction fuel with
  | zero =>
    intro u v err hu0 hud hv0 hvd herr hfuel
    exfalso
    rw [Nat.cast_zero] at hfuel
    omega
  | succ n ih =>
    intro u v err hu0 hud hv0 hvd herr hfuel
    have hsx0 : sx ≠ 0 := by rcases hsx with h | h <;> simp [h]
    have hsy0 : sy ≠ 0 := by rcases hsy with h | h <;> simp [h]
    have hxinj : ∀ a b : Int, x1 + sx * a = x1 + sx * b → a = b := fun a b hab =>
      mul_left_cancel₀ hsx0 (by linarith)
    have hyinj : ∀ a b : Int, y1 + sy * a = y1 + sy * b → a = b := fun a b hab =>
      mul_left_cancel₀ hsy0 (by linarith)
    by_cases hdone : u = dx ∧ v = dy
    · have hxeq : x1 + sx * u = x2 := by rw [hx2, hdone.1]
      have hyeq : y1 + sy * v = y2 := by rw [hy2, hdone.2]
      simp only [getLinePointsAux, if_pos (And.intro hxeq hyeq)]
      exact ⟨rfl, by simp [hxeq, hyeq]⟩
    · have hnotdone : ¬(x1 + sx * u = x2 ∧ y1 + sy * v = y2) := by
        rintro ⟨hxx, hyy⟩
        exact hdone ⟨hxinj u dx (by rw [hxx, hx2]), hyinj v dy (by rw [hyy, hy2])⟩
      have hxstep : x1 + sx * u + sx = x1 + sx * (u + 1) := by ring
      have hystep : y1 + sy * v + sy = y1 + sy * (v + 1) := by ring
      by_cases hc1 : 2 * err > -dy
      · have huless : u < dx := by
          rcases lt_or_eq_of_le hud with h | h
          · exact h
          · exfalso
            have hvless : v < dy := by
              rcases lt_or_eq_of_le hvd with h2 | h2
              · exact h2
              · exact absurd ⟨h, h2⟩ hdone
            have hvdx : v * dx ≤ (dy - 1) * dx :=
              mul_le_mul_of_nonneg_right (by omega) hdx
            rw [herr, h] at hc1
            nlinarith [hvdx]
        by_cases hc2 : 2 * err < dx
        · have hvless : v < dy := by
            rcases lt_or_eq_of_le hvd with h | h
            · exact h
            · exfalso
              have huless2 : u ≤ dx - 1 := by omega
              have hudy : u * dy ≤ (dx - 1) * dy :=
                mul_le_mul_of_nonneg_right (by omega) hdy
              rw [herr, h] at hc2
              nlinarith [hudy]
          have herr2 : err - dy + dx = dx - dy - (u + 1) * dy + (v + 1) * dx := by
            rw [herr]; ring
          have hih := ih (u + 1) (v + 1) (err - dy + dx) (by omega) (by omega)
            (by omega) (by omega) herr2 (by push_cast at hfuel ⊢; omega)
          simp only [getLinePointsAux, if_neg hnotdone, if_pos hc1, if_pos hc2]
          rw [hxstep, hystep]
          constructor
          · rfl
          · rw [getLast?_cons_of_ne_nil _ (by
              intro hnil
              rw [hnil] at hih
              exact Option.noConfusion hih.1)]
            exact hih.2
        · have herr2 : err - dy = dx - dy - (u + 1) * dy + v * dx := by
            rw [herr]; ring
          have hih := ih (u + 1) v (err - dy) (by omega) (by omega)
            (by omega) (by omega) herr2 (by push_cast at hfuel ⊢; omega)
          simp only [getLinePointsAux, if_neg hnotdone, if_pos hc1, if_neg hc2]
          rw [hxstep]
          constructor
          · rfl
          · rw [getLast?_cons_of_ne_nil _ (by
              intro hnil
              rw [hnil] at hih
              exact Option.noConfusion hih.1)]
            exact hih.2
      · by_cases hc2 : 2 * err < dx
        · have hvless : v < dy := by
            rcases lt_or_eq_of_le hvd with h | h
            · exact h
            · exfalso
              have huless : u < dx := by
                rcases lt_or_eq_of_le hud with h2 | h2
                · exact h2
                · exact absurd ⟨h2, h⟩ hdone
              have hudy : u * dy ≤ (dx - 1) * dy :=
                mul_le_mul_of_nonneg_right (by omega) hdy
              rw [herr, h] at hc2
              nlinarith [hudy]
          have herr2 : err + dx = dx - dy - u * dy + (v + 1) * dx := by
            rw [herr]; ring
          have hih := ih u (v + 1) (err + dx) (by omega) (by omega)
            (by omega) (by omega) herr2 (by push_cast at hfuel ⊢; omega)
          simp only [getLinePointsAux, if_neg hnotdone, if_neg hc1, if_pos hc2]
          rw [hystep]
          constructor
          · rfl
          · rw [getLast?_cons_of_ne_nil _ (by
              intro hnil
              rw [hnil] at hih
              exact Option.noConfusion hih.1)]
            exact hih.2
        · exfalso
          have hzero : dx = 0 ∧ dy = 0 := by omega
          exact hdone ⟨by omega, by omega⟩

/-- The list `getLinePoints` starts at `(x1, y1)` and, within its fuel,
reaches exactly `(x2, y2)` as its last cell. -/
theorem getLinePoints_head_last (x1 y1 x2 y2 : Int) :
    (getLinePoints x1 y1 x2 y2).head? = some (x1, y1)
    ∧ (getLinePoints x1 y1 x2 y2).getLast? = some (x2, y2) := by
  have hdx : (0 : Int) ≤ |x2 - x1| := abs_nonneg _
  have hdy : (0 : Int) ≤ |y2 - y1| := abs_nonneg _
  have hx2 : x2 = x1 + (if x1 < x2 then (1 : Int) else -1) * |x2 - x1| := by
    by_cases h : x1 < x2
    · rw [if_pos h, one_mul, abs_of_nonneg (by omega : (0:Int) ≤ x2 - x1)]
      ring
    · rw [if_neg h, abs_of_nonpos (by omega : x2 - x1 ≤ 0)]
      ring
  have hy2 : y2 = y1 + (if y1 < y2 then (1 : Int) else -1) * |y2 - y1| := by
    by_cases h : y1 < y2
    · rw [if_pos h, one_mul, abs_of_nonneg (by omega : (0:Int) ≤ y2 - y1)]
      ring
    · rw [if_neg h, abs_of_nonpos (by omega : y2 - y1 ≤ 0)]
      ring
  have hfuel : |x2 - x1| - 0 + (|y2 - y1| - 0)
      < (((|x2 - x1| + |y2 - y1| + 1).toNat : Nat) : Int) := by
    rw [Int.toNat_of_nonneg (by omega)]
    omega
  have h := bresAux_head_last |x2 - x1| |y2 - y1|
    (if x1 < x2 then (1 : Int) else -1) (if y1 < y2 then (1 : Int) else -1)
    x1 y1 x2 y2
    (by by_cases h : x1 < x2 <;> simp [h])
    (by by_cases h : y1 < y2 <;> simp [h])
    hdx hdy hx2 hy2
    (|x2 - x1| + |y2 - y1| + 1).toNat 0 0 (|x2 - x1| - |y2 - y1|)
    le_rfl hdx le_rfl hdy (by ring) hfuel
  rw [mul_zero, mul_zero, add_zero, add_zero] at h
  exact h

/-- C10: for every pair of integer endpoints the Bresenham loop of
`getLinePoints` terminates within its fuel, producing a finite cell sequence
that begins at `(x1, y1)` and ends at `(x2, y2)`. -/
theorem getLinePoints_terminates (x1 y1 x2 y2 : Int) :
    ∃ rest : List (Int × Int),
      getLinePoints x1 y1 x2 y2 = (x1, y1) :: rest
      ∧ (getLinePoints x1 y1 x2 y2).getLast? = some (x2, y2) := by
  obtain ⟨hh, hl⟩ := getLinePoints_head_last x1 y1 x2 y2
  rcases hcase : getLinePoints x1 y1 x2 y2 with _ | ⟨a, t⟩
  · rw [hcase] at hh
    exact Option.noConfusion hh
  · rw [hcase] at hh hl
    rw [List.head?_cons, Option.some.injEq] at hh
    refine ⟨t, ?_, ?_⟩
    · rw [hh]
    · exact hl

/-- When `dy ≤ dx`, `x` advances on every iteration, so the list from state
`u` has exactly `dx - u + 1` cells.  The error invariant is
`dx - 2*dy ≤ 2*err`, with `err = 0` on the perfect diagonal. -/
theorem bresAux_length_ge (dx dy sx sy x1 y1 x2 y2 : Int)
    (hsx : sx = 1 ∨ sx = -1) (hsy : sy = 1 ∨ sy = -1)
    (hdx : 0 ≤ dx) (hdy : 0 ≤ dy)
    (hx2 : x2 = x1 + sx * dx) (hy2 : y2 = y1 + sy * dy)
    (hge : dy ≤ dx) :
    ∀ (fuel : Nat) (u v err : Int),
      0 ≤ u → u ≤ dx → 0 ≤ v → v ≤ dy →
      err = dx - dy - u * dy + v * dx →
      dx - u + (dy - v) < (fuel : Int) →
      dx - 2 * dy ≤ 2 * err →
      (dy = dx → err = 0) →
      (getLinePointsAux dx dy sx sy x2 y2 fuel (x1 + sx * u) (y1 + sy * v) err).length
        = (dx - u).toNat + 1 := by
  intro fuel
  induction fuel with
  | zero =>
    intro u v err hu0 hud hv0 hvd herr hfuel hinv hdiag
    exfalso
    rw [Nat.cast_zero] at hfuel
    omega
  | succ n ih =>
    intro u v err hu0 hud hv0 hvd herr hfuel hinv hdiag
    have hsx0 : sx ≠ 0 := by rcases hsx with h | h <;> simp [h]
    have hsy0 : sy ≠ 0 := by rcases hsy with h | h <;> simp [h]
    have hxinj : ∀ a b : Int, x1 + sx * a = x1 + sx * b → a = b := fun a b hab =>
      mul_left_cancel₀ hsx0 (by linarith)
    have hyinj : ∀ a b : Int, y1 + sy * a = y1 + sy * b → a = b := fun a b hab =>
      mul_left_cancel₀ hsy0 (by linarith)
    by_cases hdone : u = dx ∧ v = dy
    · have hxeq : x1 + sx * u = x2 := by rw [hx2, hdone.1]
      have hyeq : y1 + sy * v = y2 := by rw [hy2, hdone.2]
      simp only [getLinePointsAux, if_pos (And.intro hxeq hyeq)]
      simp only [List.length_cons, List.length_nil]
      omega
    · have hnotdone : ¬(x1 + sx * u = x2 ∧ y1 + sy * v = y2) := by
        rintro ⟨hxx, hyy⟩
        exact hdone ⟨hxinj u dx (by rw [hxx, hx2]), hyinj v dy (by rw [hyy, hy2])⟩
      have hxstep : x1 + sx * u + sx = x1 + sx * (u + 1) := by ring
      have hystep : y1 + sy * v + sy = y1 + sy * (v + 1) := by ring
      have hc1 : 2 * err > -dy := by
        rcases lt_or_eq_of_le hge with hlt | heq
        · omega
        · have herr0 : err = 0 := hdiag heq
          by_cases hdy0 : dy = 0
          · exact absurd ⟨by omega, by omega⟩ hdone
          · omega
      have huless : u < dx := by
        rcases lt_or_eq_of_le hud with h | h
        · exact h
        · exfalso
          have hvless : v < dy := by
            rcases lt_or_eq_of_le hvd with h2 | h2
            · exact h2
            · exact absurd ⟨h, h2⟩ hdone
          have hvdx : v * dx ≤ (dy - 1) * dx :=
            mul_le_mul_of_nonneg_right (by omega) hdx
          rw [herr, h] at hc1
          nlinarith [hvdx]
      by_cases hc2 : 2 * err < dx
      · have hvless : v < dy := by
          rcases lt_or_eq_of_le hvd with h | h
          · exact h
          · exfalso
            have hudy : u * dy ≤ (dx - 1) * dy :=
              mul_le_mul_of_nonneg_right (by omega) hdy
            rw [herr, h] at hc2
            nlinarith [hudy]
        have herr2 : err - dy + dx = dx - dy - (u + 1) * dy + (v + 1) * dx := by
          rw [herr]; ring
        have hrec := ih (u + 1) (v + 1) (err - dy + dx) (by omega) (by omega)
          (by omega) (by omega) herr2 (by push_cast at hfuel ⊢; omega)
          (by omega) (fun hdd => by have := hdiag hdd; omega)
        simp only [getLinePointsAux, if_neg hnotdone, if_pos hc1, if_pos hc2]
        rw [hxstep, hystep]
        simp only [List.length_cons, hrec]
        omega
      · have herr2 : err - dy = dx - dy - (u + 1) * dy + v * dx := by
          rw [herr]; ring
        have hdiag2 : dy = dx → err - dy = 0 := by
          intro hdd
          exfalso
          have herr0 : err = 0 := hdiag hdd
          omega
        have hrec := ih (u + 1) v (err - dy) (by omega) (by omega)
          (by omega) (by omega) herr2 (by push_cast at hfuel ⊢; omega)
          (by omega) hdiag2
        simp only [getLinePointsAux, if_neg hnotdone, if_pos hc1, if_neg hc2]
        rw [hxstep]
        simp only [List.length_cons, hrec]
        omega

/-- When `dx < dy`, `y` advances on every iteration, so the list from state
`v` has exactly `dy - v + 1` cells.  The error invariant is
`2*err ≤ 2*dx - dy`. -/
theorem bresAux_length_lt (dx dy sx sy x1 y1 x2 y2 : Int)
    (hsx : sx = 1 ∨ sx = -1) (hsy : sy = 1 ∨ sy = -1)
    (hdx : 0 ≤ dx) (hdy : 0 ≤ dy)
    (hx2 : x2 = x1 + sx * dx) (hy2 : y2 = y1 + sy * dy)
    (hlt : dx < dy) :
    ∀ (fuel : Nat) (u v err : Int),
      0 ≤ u → u ≤ dx → 0 ≤ v → v ≤ dy →
      err = dx - dy - u * dy + v * dx →
      dx - u + (dy - v) < (fuel : Int) →
      2 * err ≤ 2 * dx - dy →
      (getLinePointsAux dx dy sx sy x2 y2 fuel (x1 + sx * u) (y1 + sy * v) err).length
        = (dy - v).toNat + 1 := by
  intro fuel
  induction fuel with
  | zero =>
    intro u v err hu0 hud hv0 hvd herr hfuel hinv
    exfalso
    rw [Nat.cast_zero] at hfuel
    omega
  | succ n ih =>
    intro u v err hu0 hud hv0 hvd herr hfuel hinv
    have hsx0 : sx ≠ 0 := by rcases hsx with h | h <;> simp [h]
    have hsy0 : sy ≠ 0 := by rcases hsy with h | h <;> simp [h]
    have hxinj : ∀ a b : Int, x1 + sx * a = x1 + sx * b → a = b := fun a b hab =>
      mul_left_cancel₀ hsx0 (by linarith)
    have hyinj : ∀ a b : Int, y1 + sy * a = y1 + sy * b → a = b := fun a b hab =>
      mul_left_cancel₀ hsy0 (by linarith)
    by_cases hdone : u = dx ∧ v = dy
    · have hxeq : x1 + sx * u = x2 := by rw [hx2, hdone.1]
      have hyeq : y1 + sy * v = y2 := by rw [hy2, hdone.2]
      simp only [getLinePointsAux, if_pos (And.intro hxeq hyeq)]
      simp only [List.length_cons, List.length_nil]
      omega
    · have hnotdone : ¬(x1 + sx * u = x2 ∧ y1 + sy * v = y2) := by
        rintro ⟨hxx, hyy⟩
        exact hdone ⟨hxinj u dx (by rw [hxx, hx2]), hyinj v dy (by rw [hyy, hy2])⟩
      have hxstep : x1 + sx * u + sx = x1 + sx * (u + 1) := by ring
      have hystep : y1 + sy * v + sy = y1 + sy * (v + 1) := by ring
      have hc2 : 2 * err < dx := by omega
      have hvless : v < dy := by
        rcases lt_or_eq_of_le hvd with h | h
        · exact h
        · exfalso
          have huless : u < dx := by
            rcases lt_or_eq_of_le hud with h2 | h2
            · exact h2
            · exact absurd ⟨h2, h⟩ hdone
          have hudy : u * dy ≤ (dx - 1) * dy :=
            mul_le_mul_of_nonneg_right (by omega) hdy
          rw [herr, h] at hc2
          nlinarith [hudy]
      by_cases hc1 : 2 * err > -dy
      · have huless : u < dx := by
          rcases lt_or_eq_of_le hud with h | h
          · exact h
          · exfalso
            have hvdx : v * dx ≤ (dy - 1) * dx :=
              mul_le_mul_of_nonneg_right (by omega) hdx
            rw [herr, h] at hc1
            nlinarith [hvdx]
        have herr2 : err - dy + dx = dx - dy - (u + 1) * dy + (v + 1) * dx := by
          rw [herr]; ring
        have hrec := ih (u + 1) (v + 1) (err - dy + dx) (by omega) (by omega)
          (by omega) (by omega) herr2 (by push_cast at hfuel ⊢; omega)
          (by omega)
        simp only [getLinePointsAux, if_neg hnotdone, if_pos hc1, if_pos hc2]
        rw [hxstep, hystep]
        simp only [List.length_cons, hrec]
        omega
      · have herr2 : err + dx = dx - dy - u * dy + (v + 1) * dx := by
          rw [herr]; ring
        have hrec := ih u (v + 1) (err + dx) (by omega) (by omega)
          (by omega) (by omega) herr2 (by push_cast at hfuel ⊢; omega)
          (by omega)
        simp only [getLinePointsAux, if_neg hnotdone, if_neg hc1, if_pos hc2]
        rw [hystep]
        simp only [List.length_cons, hrec]
        omega

/-- The cell count of `getLinePoints` is `max |x2-x1| |y2-y1| + 1`,
whichever way round the endpoints are given. -/
theorem getLinePoints_length (x1 y1 x2 y2 : Int) :
    (getLinePoints x1 y1 x2 y2).length = (max |x2 - x1| |y2 - y1|).toNat + 1 := by
  have hdx : (0 : Int) ≤ |x2 - x1| := abs_nonneg _
  have hdy : (0 : Int) ≤ |y2 - y1| := abs_nonneg _
  have hx2 : x2 = x1 + (if x1 < x2 then (1 : Int) else -1) * |x2 - x1| := by
    by_cases h : x1 < x2
    · rw [if_pos h, one_mul, abs_of_nonneg (by omega : (0:Int) ≤ x2 - x1)]
      ring
    · rw [if_neg h, abs_of_nonpos (by omega : x2 - x1 ≤ 0)]
      ring
  have hy2 : y2 = y1 + (if y1 < y2 then (1 : Int) else -1) * |y2 - y1| := by
    by_cases h : y1 < y2
    · rw [if_pos h, one_mul, abs_of_nonneg (by omega : (0:Int) ≤ y2 - y1)]
      ring
    · rw [if_neg h, abs_of_nonpos (by omega : y2 - y1 ≤ 0)]
      ring
  have hfuel : |x2 - x1| - 0 + (|y2 - y1| - 0)
      < (((|x2 - x1| + |y2 - y1| + 1).toNat : Nat) : Int) := by
    rw [Int.toNat_of_nonneg (by omega)]
    omega
  by_cases hcmp : |y2 - y1| ≤ |x2 - x1|
  · have h := bresAux_length_ge |x2 - x1| |y2 - y1|
      (if x1 < x2 then (1 : Int) else -1) (if y1 < y2 then (1 : Int) else -1)
      x1 y1 x2 y2
      (by by_cases h : x1 < x2 <;> simp [h])
      (by by_cases h : y1 < y2 <;> simp [h])
      hdx hdy hx2 hy2 hcmp
      (|x2 - x1| + |y2 - y1| + 1).toNat 0 0 (|x2 - x1| - |y2 - y1|)
      le_rfl hdx le_rfl hdy (by ring) hfuel (by omega) (by omega)
    rw [mul_zero, mul_zero, add_zero, add_zero] at h
    rw [getLinePoints]
    rw [h, max_eq_left hcmp]
    omega
  · have hlt : |x2 - x1| < |y2 - y1| := by omega
    have h := bresAux_length_lt |x2 - x1| |y2 - y1|
      (if x1 < x2 then (1 : Int) else -1) (if y1 < y2 then (1 : Int) else -1)
      x1 y1 x2 y2
      (by by_cases h : x1 < x2 <;> simp [h])
      (by by_cases h : y1 < y2 <;> simp [h])
      hdx hdy hx2 hy2 hlt
      (|x2 - x1| + |y2 - y1| + 1).toNat 0 0 (|x2 - x1| - |y2 - y1|)
      le_rfl hdx le_rfl hdy (by ring) hfuel (by omega)
    rw [mul_zero, mul_zero, add_zero, add_zero] at h
    rw [getLinePoints]
    rw [h, max_eq_right (le_of_lt hlt)]
    omega

theorem mem_of_head?_eq {α : Type} {l : List α} {a : α} (h : l.head? = some a) :
    a ∈ l := by
  cases l with
  | nil => exact Option.noConfusion h
  | cons b t =>
    rw [List.head?_cons, Option.some.injEq] at h
    rw [← h]
    exact List.mem_cons_self b t

theorem mem_of_getLast?_eq {α : Type} {l : List α} {a : α} (h : l.getLast? = some a) :
    a ∈ l := by
  obtain ⟨hne, heq⟩ := List.mem_getLast?_eq_getLast (x := a) (l := l) h
  rw [heq]
  exact List.getLast_mem hne

/-- Counterexample to C6's endpoint-swap clause: for the endpoints (0,0) and
(4,1), the forward rasterization passes through (2,0) but not (2,1), while
the reversed rasterization passes through (2,1) but not (2,0): the two point
sets differ in membership. -/
theorem getLinePoints_swap_counterexample :
    ((2, 0) ∈ getLinePoints 0 0 4 1 ∧ (2, 0) ∉ getLinePoints 4 1 0 0)
    ∧ ((2, 1) ∈ getLinePoints 4 1 0 0 ∧ (2, 1) ∉ getLinePoints 0 0 4 1) := by
  decide

/-- C6 (amended): `getLinePoints 0 0 3 0` is exactly the 4 cells
(0,0)..(3,0) and `getLinePoints 0 0 2 2` exactly the 3 diagonal cells;
for every pair of endpoints both the forward and the reversed rasterization
contain both endpoints and have the same number of cells
(`max |dx| |dy| + 1`), but the two point sets can differ in interior
membership. -/
theorem getLinePoints_examples_and_swap (x1 y1 x2 y2 : Int) :
    getLinePoints 0 0 3 0 = [(0, 0), (1, 0), (2, 0), (3, 0)]
    ∧ getLinePoints 0 0 2 2 = [(0, 0), (1, 1), (2, 2)]
    ∧ ((x1, y1) ∈ getLinePoints x1 y1 x2 y2 ∧ (x2, y2) ∈ getLinePoints x1 y1 x2 y2
      ∧ (x1, y1) ∈ getLinePoints x2 y2 x1 y1 ∧ (x2, y2) ∈ getLinePoints x2 y2 x1 y1)
    ∧ (getLinePoints x1 y1 x2 y2).length = (getLinePoints x2 y2 x1 y1).length := by
  refine ⟨by decide, by decide, ⟨?_, ?_, ?_, ?_⟩, ?_⟩
  · exact mem_of_head?_eq (getLinePoints_head_last x1 y1 x2 y2).1
  · exact mem_of_getLast?_eq (getLinePoints_head_last x1 y1 x2 y2).2
  · exact mem_of_getLast?_eq (getLinePoints_head_last x2 y2 x1 y1).2
  · exact mem_of_head?_eq (getLinePoints_head_last x2 y2 x1 y1).1
  · rw [getLinePoints_length x1 y1 x2 y2, getLinePoints_length x2 y2 x1 y1,
      abs_sub_comm x1 x2, abs_sub_comm y1 y2, max_comm]

theorem zswapFn_involutive (a b : Int) : ∀ z, zswapFn a b (zswapFn a b z) = z := by
  intro z
  unfold zswapFn
  split_ifs <;> omega

theorem zswapFn_injective (a b : Int) : Function.Injective (zswapFn a b) := by
  intro x y h
  calc x = zswapFn a b (zswapFn a b x) := (zswapFn_involutive a b x).symm
  _ = zswapFn a b (zswapFn a b y) := by rw [h]
  _ = y := zswapFn_involutive a b y

theorem map_zswapFn_perm (l : List Int) (hl : l.Nodup) (a b : Int)
    (ha : a ∈ l) (hb : b ∈ l) : List.Perm (l.map (zswapFn a b)) l := by
  have hnd : (l.map (zswapFn a b)).Nodup := hl.map (zswapFn_injective a b)
  rw [List.perm_ext_iff_of_nodup hnd hl]
  intro x
  rw [List.mem_map]
  constructor
  · rintro ⟨y, hy, rfl⟩
    unfold zswapFn
    split_ifs <;> assumption
  · intro hx
    refine ⟨zswapFn a b x, ?_, zswapFn_involutive a b x⟩
    unfold zswapFn
    split_ifs <;> assumption

theorem getSelectedObject_cases (app : CanvasApp) (selected : SelObj)
    (hsel : getSelectedObject app = some selected) :
    (selected.type = EntityType.text
      ∧ ∃ b ∈ app.textBoxes, b.id = selected.id ∧ b.zIndex = selected.zIndex)
    ∨ (selected.type = EntityType.rect
      ∧ ∃ r ∈ app.rectangles, r.id = selected.id ∧ r.zIndex = selected.zIndex)
    ∨ (selected.type = EntityType.line
      ∧ ∃ l ∈ app.lines, l.id = selected.id ∧ l.zIndex = selected.zIndex) := by
  unfold getSelectedObject at hsel
  split at hsel
  · next b heq =>
    rw [Option.some.injEq] at hsel
    have hmem : b ∈ app.textBoxes := by
      by_cases hc : app.selectedTextBoxIds.length = 1
      · rw [if_pos hc] at heq
        exact List.mem_of_find?_eq_some heq
      · rw [if_neg hc] at heq
        exact Option.noConfusion heq
    refine Or.inl ⟨by rw [← hsel], b, hmem, by rw [← hsel], by rw [← hsel]⟩
  · next heq1 =>
    split at hsel
    · next r heq =>
      rw [Option.some.injEq] at hsel
      have hmem : r ∈ app.rectangles := by
        by_cases hc : app.selectedRectIds.length = 1
        · rw [if_pos hc] at heq
          exact List.mem_of_find?_eq_some heq
        · rw [if_neg hc] at heq
          exact Option.noConfusion heq
      refine Or.inr (Or.inl ⟨by rw [← hsel], r, hmem, by rw [← hsel], by rw [← hsel]⟩)
    · next heq2 =>
      split at hsel
      · next l heq =>
        rw [Option.some.injEq] at hsel
        have hmem : l ∈ app.lines := by
          by_cases hc : app.selectedLineIds.length = 1
          · rw [if_pos hc] at heq
            exact List.mem_of_find?_eq_some heq
          · rw [if_neg hc] at heq
            exact Option.noConfusion heq
        exact Or.inr (Or.inr ⟨by rw [← hsel], l, hmem, by rw [← hsel], by rw [← hsel]⟩)
      · exact Option.noConfusion hsel

/-- The two z-loops plus the by-id loop on the kind of the selected entity:
on a list with unique z keys and unique id keys holding the selected entity,
the composition realizes the z-swap pointwise. -/
theorem layer_swap_kind {α : Type} (kid kz : α → Int) (setz : Int → α → α)
    (hkid : ∀ w e, kid (setz w e) = kid e)
    (hsetz : ∀ e, setz (kz e) e = e)
    (l : List α) (hlz : (l.map kz).Nodup) (hlid : (l.map kid).Nodup)
    (a nz sid : Int) (hne : nz ≠ a)
    (b : α) (hbmem : b ∈ l) (hbid : kid b = sid) (hbz : kz b = a) :
    updFirst (fun e => kid e == sid) (fun e => setz nz e)
        (updFirst (fun e => kz e == nz) (fun e => setz a e) l)
      = l.map (fun e => setz (zswapFn a nz (kz e)) e) := by
  have hinjz : ∀ x ∈ l, ∀ y ∈ l, kz x = kz y → x = y :=
    List.inj_on_of_nodup_map hlz
  have hinjid : ∀ x ∈ l, ∀ y ∈ l, kid x = kid y → x = y :=
    List.inj_on_of_nodup_map hlid
  rw [updFirst_eq_map kz (fun e => setz a e) nz l hlz]
  have hids : ((l.map fun e => if kz e = nz then setz a e else e).map kid) = l.map kid := by
    rw [List.map_map]
    exact List.map_congr_left (fun e _ => by
      by_cases h : kz e = nz <;> simp [h, hkid])
  rw [updFirst_eq_map kid (fun e => setz nz e) sid _ (by rw [hids]; exact hlid)]
  rw [List.map_map]
  refine List.map_congr_left (fun e he => ?_)
  by_cases h1 : kz e = nz
  · have hid_ne : ¬ kid e = sid := by
      intro hid
      have : e = b := hinjid e he b hbmem (by rw [hid, hbid])
      rw [this] at h1
      exact hne (by rw [← h1, hbz])
    have : zswapFn a nz (kz e) = a := by
      unfold zswapFn
      rw [h1]
      rw [if_neg (by omega : ¬ nz = a), if_pos rfl]
    simp only [Function.comp, if_pos h1, hkid, if_neg hid_ne, this]
  · by_cases h2 : kid e = sid
    · have heb : e = b := hinjid e he b hbmem (by rw [h2, hbid])
      have hkza : kz e = a := by rw [heb, hbz]
      have : zswapFn a nz (kz e) = nz := by
        unfold zswapFn
        rw [if_pos hkza]
      simp only [Function.comp, if_neg h1, if_pos h2, this]
    · have hkza : ¬ kz e = a := by
        intro hkz_a
        have : e = b := hinjz e he b hbmem (by rw [hkz_a, hbz])
        rw [this] at h2
        exact h2 hbid
      have : zswapFn a nz (kz e) = kz e := by
        unfold zswapFn
        rw [if_neg hkza, if_neg h1]
      simp only [Function.comp, if_neg h1, if_neg h2, this, hsetz]

theorem sorted_get_mono (zs : List Int) (hs : List.Sorted (· ≤ ·) zs) (i j : Nat)
    (hi : i < zs.length) (hj : j < zs.length) (hij : i ≤ j) :
    zs.get ⟨i, hi⟩ ≤ zs.get ⟨j, hj⟩ := by
  rcases Nat.eq_or_lt_of_le hij with h | h
  · subst h
    exact le_refl _
  · have := List.pairwise_iff_getElem.mp hs i j hi hj h
    simpa using this

theorem nodup_get_ne (zs : List Int) (hnd : zs.Nodup) (i j : Nat)
    (hi : i < zs.length) (hj : j < zs.length) (hij : i < j) :
    zs.get ⟨i, hi⟩ ≠ zs.get ⟨j, hj⟩ := by
  have := List.pairwise_iff_getElem.mp hnd i j hi hj hij
  simpa using this

theorem selected_z_mem (app : CanvasApp) (selected : SelObj)
    (hsel : getSelectedObject app = some selected) :
    selected.zIndex ∈ allZ app := by
  rcases getSelectedObject_cases app selected hsel with
    ⟨_, b, hb, _, hbz⟩ | ⟨_, r, hr, _, hrz⟩ | ⟨_, l, hl, _, hlz⟩
  · exact List.mem_append_left _ (List.mem_append_left _ (List.mem_map.mpr ⟨b, hb, hbz⟩))
  · exact List.mem_append_left _ (List.mem_append_right _ (List.mem_map.mpr ⟨r, hr, hrz⟩))
  · exact List.mem_append_right _ (List.mem_map.mpr ⟨l, hl, hlz⟩)

/-- The z-loop on a kind that holds neither the selected entity nor (when
absent) its z-value realizes the z-swap pointwise. -/
theorem layer_swap_other {α : Type} (kz : α → Int) (setz : Int → α → α)
    (hsetz : ∀ e, setz (kz e) e = e)
    (l : List α) (hlz : (l.map kz).Nodup)
    (a nz : Int) (hne : nz ≠ a) (hano : a ∉ l.map kz) :
    updFirst (fun e => kz e == nz) (fun e => setz a e) l
      = l.map (fun e => setz (zswapFn a nz (kz e)) e) := by
  rw [updFirst_eq_map kz (fun e => setz a e) nz l hlz]
  refine List.map_congr_left (fun e he => ?_)
  by_cases h1 : kz e = nz
  · have : zswapFn a nz (kz e) = a := by
      unfold zswapFn
      rw [h1, if_neg (by omega : ¬ nz = a), if_pos rfl]
    rw [if_pos h1, this]
  · have hkza : ¬ kz e = a := by
      intro hkz_a
      exact hano (by rw [← hkz_a]; exact List.mem_map.mpr ⟨e, he, rfl⟩)
    have : zswapFn a nz (kz e) = kz e := by
      unfold zswapFn
      rw [if_neg hkza, if_neg h1]
    rw [if_neg h1, this, hsetz]

theorem applyZSwap_lists (app : CanvasApp) (selected : SelObj) (nz : Int)
    (hz : (allZ app).Nodup)
    (hidT : (app.textBoxes.map TextBox.id).Nodup)
    (hidR : (app.rectangles.map Rectangle.id).Nodup)
    (hidL : (app.lines.map Line.id).Nodup)
    (hent : (selected.type = EntityType.text
        ∧ ∃ b ∈ app.textBoxes, b.id = selected.id ∧ b.zIndex = selected.zIndex)
      ∨ (selected.type = EntityType.rect
        ∧ ∃ r ∈ app.rectangles, r.id = selected.id ∧ r.zIndex = selected.zIndex)
      ∨ (selected.type = EntityType.line
        ∧ ∃ l ∈ app.lines, l.id = selected.id ∧ l.zIndex = selected.zIndex))
    (hne : nz ≠ selected.zIndex) :
    (applyZSwap app selected nz).textBoxes
      = app.textBoxes.map
          (fun b => { b with zIndex := zswapFn selected.zIndex nz b.zIndex })
    ∧ (applyZSwap app selected nz).rectangles
      = app.rectangles.map
          (fun r => { r with zIndex := zswapFn selected.zIndex nz r.zIndex })
    ∧ (applyZSwap app selected nz).lines
      = app.lines.map
          (fun l => { l with zIndex := zswapFn selected.zIndex nz l.zIndex }) := by
  have h1 := List.nodup_append.mp (by exact hz)
  have h2 := List.nodup_append.mp h1.1
  rcases hent with ⟨htype, b, hb, hbid, hbz⟩ | ⟨htype, r, hr, hrid, hrz⟩
    | ⟨htype, l0, hl0, hl0id, hl0z⟩
  · have haT : selected.zIndex ∈ app.textBoxes.map TextBox.zIndex :=
      List.mem_map.mpr ⟨b, hb, hbz⟩
    have haR : selected.zIndex ∉ app.rectangles.map Rectangle.zIndex :=
      fun hmem => h2.2.2 haT hmem
    have haL : selected.zIndex ∉ app.lines.map Line.zIndex :=
      fun hmem => h1.2.2 (List.mem_append_left _ haT) hmem
    refine ⟨?_, ?_, ?_⟩
    · simp only [applyZSwap, htype]
      exact layer_swap_kind TextBox.id TextBox.zIndex (fun w e => { e with zIndex := w })
        (fun w e => rfl) (fun e => rfl) app.textBoxes h2.1 hidT
        selected.zIndex nz selected.id hne b hb hbid hbz
    · simp only [applyZSwap, htype]
      exact layer_swap_other Rectangle.zIndex (fun w e => { e with zIndex := w })
        (fun e => rfl) app.rectangles h2.2.1 selected.zIndex nz hne haR
    · simp only [applyZSwap, htype]
      exact layer_swap_other Line.zIndex (fun w e => { e with zIndex := w })
        (fun e => rfl) app.lines h1.2.1 selected.zIndex nz hne haL
  · have haR : selected.zIndex ∈ app.rectangles.map Rectangle.zIndex :=
      List.mem_map.mpr ⟨r, hr, hrz⟩
    have haT : selected.zIndex ∉ app.textBoxes.map TextBox.zIndex :=
      fun hmem => h2.2.2 hmem haR
    have haL : selected.zIndex ∉ app.lines.map Line.zIndex :=
      fun hmem => h1.2.2 (List.mem_append_right _ haR) hmem
    refine ⟨?_, ?_, ?_⟩
    · simp only [applyZSwap, htype]
      exact layer_swap_other TextBox.zIndex (fun w e => { e with zIndex := w })
        (fun e => rfl) app.textBoxes h2.1 selected.zIndex nz hne haT
    · simp only [applyZSwap, htype]
      exact layer_swap_kind Rectangle.id Rectangle.zIndex (fun w e => { e with zIndex := w })
        (fun w e => rfl) (fun e => rfl) app.rectangles h2.2.1 hidR
        selected.zIndex nz selected.id hne r hr hrid hrz
    · simp only [applyZSwap, htype]
      exact layer_swap_other Line.zIndex (fun w e => { e with zIndex := w })
        (fun e => rfl) app.lines h1.2.1 selected.zIndex nz hne haL
  · have haL : selected.zIndex ∈ app.lines.map Line.zIndex :=
      List.mem_map.mpr ⟨l0, hl0, hl0z⟩
    have haT : selected.zIndex ∉ app.textBoxes.map TextBox.zIndex :=
      fun hmem => h1.2.2 (List.mem_append_left _ hmem) haL
    have haR : selected.zIndex ∉ app.rectangles.map Rectangle.zIndex :=
      fun hmem => h1.2.2 (List.mem_append_right _ hmem) haL
    refine ⟨?_, ?_, ?_⟩
    · simp only [applyZSwap, htype]
      exact layer_swap_other TextBox.zIndex (fun w e => { e with zIndex := w })
        (fun e => rfl) app.textBoxes h2.1 selected.zIndex nz hne haT
    · simp only [applyZSwap, htype]
      exact layer_swap_other Rectangle.zIndex (fun w e => { e with zIndex := w })
        (fun e => rfl) app.rectangles h2.2.1 selected.zIndex nz hne haR
    · simp only [applyZSwap, htype]
      exact layer_swap_kind Line.id Line.zIndex (fun w e => { e with zIndex := w })
        (fun w e => rfl) (fun e => rfl) app.lines h1.2.1 hidL
        selected.zIndex nz selected.id hne l0 hl0 hl0id hl0z

theorem moveLayerDown_spec (app : CanvasApp) (selected : SelObj)
    (hz : (allZ app).Nodup)
    (hidT : (app.textBoxes.map TextBox.id).Nodup)
    (hidR : (app.rectangles.map Rectangle.id).Nodup)
    (hidL : (app.lines.map Line.id).Nodup)
    (hsel : getSelectedObject app = some selected) :
    ((∀ w ∈ allZ app, selected.zIndex ≤ w) → moveLayerDown app = app)
    ∧ ((∃ w ∈ allZ app, w < selected.zIndex) →
        ∃ p ∈ allZ app, p < selected.zIndex
          ∧ (∀ w ∈ allZ app, w < selected.zIndex → w ≤ p)
          ∧ (moveLayerDown app).textBoxes
              = app.textBoxes.map
                  (fun b => { b with zIndex := zswapFn selected.zIndex p b.zIndex })
          ∧ (moveLayerDown app).rectangles
              = app.rectangles.map
                  (fun r => { r with zIndex := zswapFn selected.zIndex p r.zIndex })
          ∧ (moveLayerDown app).lines
              = app.lines.map
                  (fun l => { l with zIndex := zswapFn selected.zIndex p l.zIndex })) := by
  have hamem : selected.zIndex ∈ allZ app := selected_z_mem app selected hsel
  have hperm : List.Perm (getAllZIndices app) (allZ app) := List.perm_insertionSort _ _
  have hsorted : List.Sorted (· ≤ ·) (getAllZIndices app) := List.sorted_insertionSort _ _
  have hnd : (getAllZIndices app).Nodup := hperm.nodup_iff.mpr hz
  have hmemz : selected.zIndex ∈ getAllZIndices app := hperm.mem_iff.mpr hamem
  obtain ⟨ci, hfind⟩ :
      ∃ ci, (getAllZIndices app).findIdx? (fun z => z == selected.zIndex) = some ci :=
    ⟨_, List.findIdx?_eq_some_of_exists ⟨selected.zIndex, hmemz, by simp⟩⟩
  obtain ⟨hci, hpeq, hmin⟩ := List.findIdx?_eq_some_iff_getElem.mp hfind
  have hzci : (getAllZIndices app).get ⟨ci, hci⟩ = selected.zIndex := by
    simpa [List.get_eq_getElem] using hpeq
  constructor
  · intro hext
    have hci0 : ci = 0 := by
      by_contra hne0
      have h0 : 0 < (getAllZIndices app).length := lt_of_le_of_lt (Nat.zero_le ci) hci
      have hneq := hmin 0 (Nat.pos_of_ne_zero hne0)
      have hneq2 : (getAllZIndices app).get ⟨0, h0⟩ ≠ selected.zIndex := by
        simpa [List.get_eq_getElem] using hneq
      have hle1 : selected.zIndex ≤ (getAllZIndices app).get ⟨0, h0⟩ :=
        hext _ (hperm.mem_iff.mp (List.get_mem _ _ _))
      have hle2 : (getAllZIndices app).get ⟨0, h0⟩ ≤ (getAllZIndices app).get ⟨ci, hci⟩ :=
        sorted_get_mono _ hsorted 0 ci h0 hci (Nat.zero_le ci)
      rw [hzci] at hle2
      exact hneq2 (le_antisymm hle2 hle1)
    simp only [moveLayerDown, hsel, hfind]
    rw [if_pos hci0]
  · rintro ⟨w0, hw0, hw0lt⟩
    have hcine : ci ≠ 0 := by
      intro h0
      subst h0
      obtain ⟨⟨j, hj⟩, hjw⟩ := List.get_of_mem (hperm.mem_iff.mpr hw0)
      have hle : (getAllZIndices app).get ⟨0, hci⟩ ≤ (getAllZIndices app).get ⟨j, hj⟩ :=
        sorted_get_mono _ hsorted 0 j hci hj (Nat.zero_le j)
      rw [hzci, hjw] at hle
      omega
    have hcim1 : ci - 1 < (getAllZIndices app).length := by omega
    have hple : (getAllZIndices app).get ⟨ci - 1, hcim1⟩
        ≤ (getAllZIndices app).get ⟨ci, hci⟩ :=
      sorted_get_mono _ hsorted (ci - 1) ci hcim1 hci (by omega)
    have hpne : (getAllZIndices app).get ⟨ci - 1, hcim1⟩
        ≠ (getAllZIndices app).get ⟨ci, hci⟩ :=
      nodup_get_ne _ hnd (ci - 1) ci hcim1 hci (by omega)
    rw [hzci] at hple hpne
    have hplt : (getAllZIndices app).get ⟨ci - 1, hcim1⟩ < selected.zIndex := by omega
    have hlowerD : (getAllZIndices app).getD (ci - 1) 0
        = (getAllZIndices app).get ⟨ci - 1, hcim1⟩ := by
      rw [List.getD_eq_getElem?_getD, List.getElem?_eq_getElem hcim1]
      simp [List.get_eq_getElem]
    have hred : moveLayerDown app
        = applyZSwap (saveSnapshot app) selected
            ((getAllZIndices app).get ⟨ci - 1, hcim1⟩) := by
      simp only [moveLayerDown, hsel, hfind]
      rw [if_neg hcine, hlowerD]
    have hent := getSelectedObject_cases app selected hsel
    obtain ⟨hT, hR, hL⟩ := applyZSwap_lists (saveSnapshot app) selected
      ((getAllZIndices app).get ⟨ci - 1, hcim1⟩) hz hidT hidR hidL hent (by omega)
    refine ⟨(getAllZIndices app).get ⟨ci - 1, hcim1⟩,
      hperm.mem_iff.mp (List.get_mem _ _ _), hplt, ?_, ?_, ?_, ?_⟩
    · intro w hw hwlt
      obtain ⟨⟨j, hj⟩, hjw⟩ := List.get_of_mem (hperm.mem_iff.mpr hw)
      by_cases hjci : j < ci
      · have := sorted_get_mono _ hsorted j (ci - 1) hj hcim1 (by omega)
        rw [hjw] at this
        exact this
      · exfalso
        have := sorted_get_mono _ hsorted ci j hci hj (by omega)
        rw [hzci, hjw] at this
        omega
    · rw [hred]
      exact hT
    · rw [hred]
      exact hR
    · rw [hred]
      exact hL

theorem moveLayerUp_spec (app : CanvasApp) (selected : SelObj)
    (hz : (allZ app).Nodup)
    (hidT : (app.textBoxes.map TextBox.id).Nodup)
    (hidR : (app.rectangles.map Rectangle.id).Nodup)
    (hidL : (app.lines.map Line.id).Nodup)
    (hsel : getSelectedObject app = some selected) :
    ((∀ w ∈ allZ app, w ≤ selected.zIndex) → moveLayerUp app = app)
    ∧ ((∃ w ∈ allZ app, selected.zIndex < w) →
        ∃ s ∈ allZ app, selected.zIndex < s
          ∧ (∀ w ∈ allZ app, selected.zIndex < w → s ≤ w)
          ∧ (moveLayerUp app).textBoxes
              = app.textBoxes.map
                  (fun b => { b with zIndex := zswapFn selected.zIndex s b.zIndex })
          ∧ (moveLayerUp app).rectangles
              = app.rectangles.map
                  (fun r => { r with zIndex := zswapFn selected.zIndex s r.zIndex })
          ∧ (moveLayerUp app).lines
              = app.lines.map
                  (fun l => { l with zIndex := zswapFn selected.zIndex s l.zIndex })) := by
  have hamem : selected.zIndex ∈ allZ app := selected_z_mem app selected hsel
  have hperm : List.Perm (getAllZIndices app) (allZ app) := List.perm_insertionSort _ _
  have hsorted : List.Sorted (· ≤ ·) (getAllZIndices app) := List.sorted_insertionSort _ _
  have hnd : (getAllZIndices app).Nodup := hperm.nodup_iff.mpr hz
  have hmemz : selected.zIndex ∈ getAllZIndices app := hperm.mem_iff.mpr hamem
  obtain ⟨ci, hfind⟩ :
      ∃ ci, (getAllZIndices app).findIdx? (fun z => z == selected.zIndex) = some ci :=
    ⟨_, List.findIdx?_eq_some_of_exists ⟨selected.zIndex, hmemz, by simp⟩⟩
  obtain ⟨hci, hpeq, hmin⟩ := List.findIdx?_eq_some_iff_getElem.mp hfind
  have hzci : (getAllZIndices app).get ⟨ci, hci⟩ = selected.zIndex := by
    simpa [List.get_eq_getElem] using hpeq
  constructor
  · intro hext
    have hcitop : ci + 1 ≥ (getAllZIndices app).length := by
      by_contra hlt
      have hsucc : ci + 1 < (getAllZIndices app).length := by omega
      have hle : (getAllZIndices app).get ⟨ci, hci⟩
          ≤ (getAllZIndices app).get ⟨ci + 1, hsucc⟩ :=
        sorted_get_mono _ hsorted ci (ci + 1) hci hsucc (by omega)
      have hne2 : (getAllZIndices app).get ⟨ci, hci⟩
          ≠ (getAllZIndices app).get ⟨ci + 1, hsucc⟩ :=
        nodup_get_ne _ hnd ci (ci + 1) hci hsucc (by omega)
      have hub := hext _ (hperm.mem_iff.mp (List.get_mem _ (ci + 1) hsucc))
      rw [hzci] at hle hne2
      omega
    simp only [moveLayerUp, hsel, hfind]
    rw [if_pos hcitop]
  · rintro ⟨w0, hw0, hw0lt⟩
    have hcitop : ¬ ci + 1 ≥ (getAllZIndices app).length := by
      intro htop
      obtain ⟨⟨j, hj⟩, hjw⟩ := List.get_of_mem (hperm.mem_iff.mpr hw0)
      have hjle : j ≤ ci := by omega
      have hle : (getAllZIndices app).get ⟨j, hj⟩
          ≤ (getAllZIndices app).get ⟨ci, hci⟩ :=
        sorted_get_mono _ hsorted j ci hj hci hjle
      rw [hzci, hjw] at hle
      omega
    have hsucc : ci + 1 < (getAllZIndices app).length := by omega
    have hsle : (getAllZIndices app).get ⟨ci, hci⟩
        ≤ (getAllZIndices app).get ⟨ci + 1, hsucc⟩ :=
      sorted_get_mono _ hsorted ci (ci + 1) hci hsucc (by omega)
    have hsne : (getAllZIndices app).get ⟨ci, hci⟩
        ≠ (getAllZIndices app).get ⟨ci + 1, hsucc⟩ :=
      nodup_get_ne _ hnd ci (ci + 1) hci hsucc (by omega)
    rw [hzci] at hsle hsne
    have hslt : selected.zIndex < (getAllZIndices app).get ⟨ci + 1, hsucc⟩ := by omega
    have hupperD : (getAllZIndices app).getD (ci + 1) 0
        = (getAllZIndices app).get ⟨ci + 1, hsucc⟩ := by
      rw [List.getD_eq_getElem?_getD, List.getElem?_eq_getElem hsucc]
      simp [List.get_eq_getElem]
    have hred : moveLayerUp app
        = applyZSwap (saveSnapshot app) selected
            ((getAllZIndices app).get ⟨ci + 1, hsucc⟩) := by
      simp only [moveLayerUp, hsel, hfind]
      rw [if_neg hcitop, hupperD]
    have hent := getSelectedObject_cases app selected hsel
    obtain ⟨hT, hR, hL⟩ := applyZSwap_lists (saveSnapshot app) selected
      ((getAllZIndices app).get ⟨ci + 1, hsucc⟩) hz hidT hidR hidL hent (by omega)
    refine ⟨(getAllZIndices app).get ⟨ci + 1, hsucc⟩,
      hperm.mem_iff.mp (List.get_mem _ _ _), hslt, ?_, ?_, ?_, ?_⟩
    · intro w hw hwlt
      obtain ⟨⟨j, hj⟩, hjw⟩ := List.get_of_mem (hperm.mem_iff.mpr hw)
      by_cases hjci : ci < j
      · have := sorted_get_mono _ hsorted (ci + 1) j hsucc hj (by omega)
        rw [hjw] at this
        exact this
      · exfalso
        have := sorted_get_mono _ hsorted j ci hj hci (by omega)
        rw [hzci, hjw] at this
        omega
    · rw [hred]
      exact hT
    · rw [hred]
      exact hR
    · rw [hred]
      exact hL

theorem moveLayerDown_allZ (app : CanvasApp)
    (hz : (allZ app).Nodup)
    (hidT : (app.textBoxes.map TextBox.id).Nodup)
    (hidR : (app.rectangles.map Rectangle.id).Nodup)
    (hidL : (app.lines.map Line.id).Nodup) :
    (allZ (moveLayerDown app) : Multiset Int) = (allZ app : Multiset Int) := by
  cases hsel : getSelectedObject app with
  | none =>
    have h : moveLayerDown app = app := by simp [moveLayerDown, hsel]
    rw [h]
  | some selected =>
    by_cases hext : ∀ w ∈ allZ app, selected.zIndex ≤ w
    · rw [(moveLayerDown_spec app selected hz hidT hidR hidL hsel).1 hext]
    · have hexists : ∃ w ∈ allZ app, w < selected.zIndex := by
        push_neg at hext
        exact hext
      obtain ⟨p, hp, hplt, _, hT, hR, hL⟩ :=
        (moveLayerDown_spec app selected hz hidT hidR hidL hsel).2 hexists
      have hmap : allZ (moveLayerDown app)
          = (allZ app).map (zswapFn selected.zIndex p) := by
        unfold allZ
        rw [hT, hR, hL, List.map_map, List.map_map, List.map_map,
          List.map_append, List.map_append, List.map_map, List.map_map, List.map_map]
        rfl
      rw [hmap, Multiset.coe_eq_coe]
      exact map_zswapFn_perm (allZ app) hz selected.zIndex p
        (selected_z_mem app selected hsel) hp

theorem moveLayerUp_allZ (app : CanvasApp)
    (hz : (allZ app).Nodup)
    (hidT : (app.textBoxes.map TextBox.id).Nodup)
    (hidR : (app.rectangles.map Rectangle.id).Nodup)
    (hidL : (app.lines.map Line.id).Nodup) :
    (allZ (moveLayerUp app) : Multiset Int) = (allZ app : Multiset Int) := by
  cases hsel : getSelectedObject app with
  | none =>
    have h : moveLayerUp app = app := by simp [moveLayerUp, hsel]
    rw [h]
  | some selected =>
    by_cases hext : ∀ w ∈ allZ app, w ≤ selected.zIndex
    · rw [(moveLayerUp_spec app selected hz hidT hidR hidL hsel).1 hext]
    · have hexists : ∃ w ∈ allZ app, selected.zIndex < w := by
        push_neg at hext
        exact hext
      obtain ⟨s, hs, hslt, _, hT, hR, hL⟩ :=
        (moveLayerUp_spec app selected hz hidT hidR hidL hsel).2 hexists
      have hmap : allZ (moveLayerUp app)
          = (allZ app).map (zswapFn selected.zIndex s) := by
        unfold allZ
        rw [hT, hR, hL, List.map_map, List.map_map, List.map_map,
          List.map_append, List.map_append, List.map_map, List.map_map, List.map_map]
        rfl
      rw [hmap, Multiset.coe_eq_coe]
      exact map_zswapFn_perm (allZ app) hz selected.zIndex s
        (selected_z_mem app selected hsel) hs

/-- C5: on a document with pairwise-distinct z-indices and exactly one
selected entity, `moveLayerDown` and `moveLayerUp` preserve the multiset of
all z-index values; they are no-ops when the selected entity is at the
corresponding extreme; and otherwise they exchange exactly the two z-index
values of the selected entity and of its neighbor in the ascending z-order
(the greatest value below, resp. the least value above), leaving every other
entity untouched. -/
theorem moveLayer_zswap (app : CanvasApp)
    (hz : (allZ app).Nodup)
    (hidT : (app.textBoxes.map TextBox.id).Nodup)
    (hidR : (app.rectangles.map Rectangle.id).Nodup)
    (hidL : (app.lines.map Line.id).Nodup)
    (_hcount : app.selectedTextBoxIds.length + app.selectedRectIds.length
        + app.selectedLineIds.length = 1) :
    (allZ (moveLayerDown app) : Multiset Int) = (allZ app : Multiset Int)
    ∧ (allZ (moveLayerUp app) : Multiset Int) = (allZ app : Multiset Int)
    ∧ ∀ selected, getSelectedObject app = some selected →
        ((∀ w ∈ allZ app, selected.zIndex ≤ w) → moveLayerDown app = app)
        ∧ ((∀ w ∈ allZ app, w ≤ selected.zIndex) → moveLayerUp app = app)
        ∧ ((∃ w ∈ allZ app, w < selected.zIndex) →
            ∃ p ∈ allZ app, p < selected.zIndex
              ∧ (∀ w ∈ allZ app, w < selected.zIndex → w ≤ p)
              ∧ (moveLayerDown app).textBoxes
                  = app.textBoxes.map
                      (fun b => { b with zIndex := zswapFn selected.zIndex p b.zIndex })
              ∧ (moveLayerDown app).rectangles
                  = app.rectangles.map
                      (fun r => { r with zIndex := zswapFn selected.zIndex p r.zIndex })
              ∧ (moveLayerDown app).lines
                  = app.lines.map
                      (fun l => { l with zIndex := zswapFn selected.zIndex p l.zIndex }))
        ∧ ((∃ w ∈ allZ app, selected.zIndex < w) →
            ∃ s ∈ allZ app, selected.zIndex < s
              ∧ (∀ w ∈ allZ app, selected.zIndex < w → s ≤ w)
              ∧ (moveLayerUp app).textBoxes
                  = app.textBoxes.map
                      (fun b => { b with zIndex := zswapFn selected.zIndex s b.zIndex })
              ∧ (moveLayerUp app).rectangles
                  = app.rectangles.map
                      (fun r => { r with zIndex := zswapFn selected.zIndex s r.zIndex })
              ∧ (moveLayerUp app).lines
                  = app.lines.map
                      (fun l => { l with zIndex := zswapFn selected.zIndex s l.zIndex })) := by
  refine ⟨moveLayerDown_allZ app hz hidT hidR hidL,
    moveLayerUp_allZ app hz hidT hidR hidL, ?_⟩
  intro selected hsel
  have hd := moveLayerDown_spec app selected hz hidT hidR hidL hsel
  have hu := moveLayerUp_spec app selected hz hidT hidR hidL hsel
  exact ⟨hd.1, hu.1, hd.2, hu.2⟩

/-- Witness for C5 at a concrete two-rectangle document. -/
theorem moveLayer_zswap_witness :
    (allZ (moveLayerDown layerApp) : Multiset Int) = (allZ layerApp : Multiset Int)
    ∧ (allZ (moveLayerUp layerApp) : Multiset Int) = (allZ layerApp : Multiset Int) :=
  ⟨(moveLayer_zswap layerApp (by decide) (by decide) (by decide) (by decide)
      (by decide)).1,
   (moveLayer_zswap layerApp (by decide) (by decide) (by decide) (by decide)
      (by decide)).2.1⟩

end Tigma

